import Mathlib

/-
Verification of the cgrun core (src/cgrun.go) against its specification.

The Go program manipulates the cgroup pseudo-filesystem.  We embed it
shallowly: paths are segment lists (the empty list stands for the empty
string "" used by the code to mark an unmounted subsystem), the filesystem
is an explicit value threaded through the operations, and every Go map is
modelled as an association list.  Go map iteration order is unspecified, so
the theorems quantify over the parameter list; every iteration order is one
such list.

Filesystem operation semantics follow what the code relies on for cgroupfs:
  - os.Mkdir(path, perm): fails iff the directory already exists, otherwise
    records the directory together with its permission bits;
  - ioutil.WriteFile(path, content, 0): succeeds iff the enclosing directory
    exists (cgroup parameter pseudo-files exist as soon as the cgroup
    directory does), replacing the content stored at that path;
  - ioutil.ReadFile(path): returns the stored content, failing with a
    not-exist error otherwise;
  - os.Remove(dir): rmdir; on cgroupfs it succeeds on a directory holding
    only parameter pseudo-files, and fails when a descendant cgroup
    directory is still present; removing a missing directory is a not-exist
    error (the distinction os.IsNotExist tests).
-/

namespace Cgrun

/-- A filesystem path, as the list of its segments. -/
abbrev Path := List String

/-- Errors produced by the embedded operations. -/
inductive Err where
  /-- fmt.Errorf("subsystem not mounted") raised by setupHierarchy. -/
  | subsysNotMounted (s : String)
  /-- A not-exist failure (the case os.IsNotExist recognises). -/
  | notExist (p : Path)
  /-- os.Mkdir on an existing directory. -/
  | alreadyExists (p : Path)
  /-- rmdir of a cgroup directory that still has a descendant cgroup. -/
  | notEmpty (p : Path)
  /-- Index out of range: models a Go runtime panic on short stat records. -/
  | panicIdx
  /-- Fuel exhaustion of the embedded recursion (collectPids recurses on the
      snapshot without a visited set; on a cyclic snapshot it would not
      terminate, so the embedding carries fuel). -/
  | noFuel
deriving DecidableEq

/-- The filesystem state: directories (with their permission bits) and
regular-file contents. -/
structure FS where
  dirs : List (Path × Nat)
  files : List (Path × String)
deriving DecidableEq

/-- Does a directory exist at this path. -/
def dirExistsB (fs : FS) (p : Path) : Bool :=
  fs.dirs.any (fun d => decide (d.1 = p))

/-- Permission bits of the directory at this path, if present. -/
def dirPerm (fs : FS) (p : Path) : Option Nat :=
  (fs.dirs.find? (fun d => decide (d.1 = p))).map (fun d => d.2)

/-- os.Mkdir. -/
def mkdirR (fs : FS) (p : Path) (perm : Nat) : Except Err FS :=
  if dirExistsB fs p then .error (.alreadyExists p)
  else .ok { fs with dirs := (p, perm) :: fs.dirs }

/-- ioutil.ReadFile. -/
def readFileR (fs : FS) (p : Path) : Except Err String :=
  match fs.files.find? (fun f => decide (f.1 = p)) with
  | some f => .ok f.2
  | none => .error (.notExist p)

/-- ioutil.WriteFile with permission argument 0 (permission bits are ignored
by cgroup pseudo-files, as the spec notes). -/
def writeFileR (fs : FS) (p : Path) (content : String) : Except Err FS :=
  if dirExistsB fs p.dropLast then
    .ok { fs with files := (p, content) :: fs.files.filter (fun f => decide (f.1 ≠ p)) }
  else .error (.notExist p)

/-- Is `q` a directory strictly below `p`. -/
def strictlyBelow (p q : Path) : Bool :=
  p.isPrefixOf q && decide (p ≠ q)

/-- Does some directory lie strictly below `p` (a descendant cgroup, which
makes rmdir of `p` fail). -/
def blockedB (fs : FS) (p : Path) : Bool :=
  fs.dirs.any (fun d => strictlyBelow p d.1)

/-- os.Remove of a cgroup directory: fails with a not-exist error when the
directory is absent, fails (busy/not-empty) when a descendant cgroup
directory remains, and otherwise removes the directory together with the
parameter pseudo-files directly inside it. -/
def removeDir (fs : FS) (p : Path) : Except Err FS :=
  if dirExistsB fs p then
    if blockedB fs p then .error (.notEmpty p)
    else .ok { dirs := fs.dirs.filter (fun d => decide (d.1 ≠ p)),
               files := fs.files.filter (fun f => decide (f.1.dropLast ≠ p)) }
  else .error (.notExist p)

/-! ## Data model

`Mounts` embeds the global map subsysMountPoints (subsystem name to mount
path; the empty path plays the role of the empty string ""), and `Params`
embeds the caller-supplied map params (subsystem to parameter/value pairs).
-/

abbrev Mounts := List (String × Path)

abbrev Params := List (String × List (String × String))

/-- Lookup in the subsysMountPoints map: the Go two-valued read
`mountPoint, ok := subsysMountPoints[subsys]`. -/
def lookupMount (mounts : Mounts) (s : String) : Option Path :=
  (mounts.find? (fun m => decide (m.1 = s))).map (fun m => m.2)

/-- The code guard `!ok || mountPoint == ""` inverted: the subsystem is
registered with a non-empty mount path. -/
def isMounted (mounts : Mounts) (s : String) : Bool :=
  match lookupMount mounts s with
  | some mp => !mp.isEmpty
  | none => false

/-- var mandatoryParameters = map[string][]string{"cpuset": {"cpus", "mems"}}. -/
def mandatoryParameters : List (String × List String) :=
  [("cpuset", ["cpus", "mems"])]

/-- Lookup in the mandatoryParameters table. -/
def lookupMand (s : String) : Option (List String) :=
  (mandatoryParameters.find? (fun m => decide (m.1 = s))).map (fun m => m.2)

/-! ## setupHierarchy and cleanupHierarchy -/

/-- The inner mandatory-parameter loop of setupHierarchy: for each mandatory
parameter, read its current value from the parent hierarchy directory
(filepath.Dir of the new directory, i.e. one path level up) and write that
same value into the newly created directory.  On failure the filesystem as
mutated so far is returned alongside the error, matching the partial state
the deferred cleanup then sees. -/
def writeMandatory (hirPath : Path) (subsys : String) :
    FS → List String → Option Err × FS
  | fs, [] => (none, fs)
  | fs, param :: rest =>
    match readFileR fs (hirPath.dropLast ++ [subsys ++ "." ++ param]) with
    | .error e => (some e, fs)
    | .ok buf =>
      match writeFileR fs (hirPath ++ [subsys ++ "." ++ param]) buf with
      | .error e => (some e, fs)
      | .ok fs1 => writeMandatory hirPath subsys fs1 rest

/-- The caller-parameter loop of setupHierarchy: write every requested
parameter=value pair as the contents of hierarchy/subsys.param. -/
def writeParamValues (hirPath : Path) (subsys : String) :
    FS → List (String × String) → Option Err × FS
  | fs, [] => (none, fs)
  | fs, (param, val) :: rest =>
    match writeFileR fs (hirPath ++ [subsys ++ "." ++ param]) val with
    | .error e => (some e, fs)
    | .ok fs1 => writeParamValues hirPath subsys fs1 rest

/-- One iteration of the setupHierarchy loop body, for a single subsystem:
mount lookup, os.Mkdir(mountPoint/name, 0750), mandatory-parameter
inheritance, then the caller-requested parameter writes. -/
def setupSubsys (mounts : Mounts) (hirName : Path) (fs : FS)
    (subsys : String) (values : List (String × String)) : Option Err × FS :=
  match lookupMount mounts subsys with
  | none => (some (.subsysNotMounted subsys), fs)
  | some mp =>
    if mp.isEmpty then (some (.subsysNotMounted subsys), fs)
    else
      match mkdirR fs (mp ++ hirName) 0o750 with
      | .error e => (some e, fs)
      | .ok fs1 =>
        match (match lookupMand subsys with
               | some mands => writeMandatory (mp ++ hirName) subsys fs1 mands
               | none => (none, fs1)) with
        | (some e, fs2) => (some e, fs2)
        | (none, fs2) => writeParamValues (mp ++ hirName) subsys fs2 values

/-- The setupHierarchy loop over all subsystems of the parameter set. -/
def setupLoop (mounts : Mounts) (hirName : Path) :
    FS → Params → Option Err × FS
  | fs, [] => (none, fs)
  | fs, (s, vs) :: rest =>
    match setupSubsys mounts hirName fs s vs with
    | (some e, fs1) => (some e, fs1)
    | (none, fs1) => setupLoop mounts hirName fs1 rest

/-- cleanupHierarchy: for every subsystem of the parameter set with a
non-empty mount path, attempt os.Remove of mountPoint/name; a not-exist
failure is ignored, any other failure is recorded on the error stream (the
returned path list embeds the stderr diagnostics) and the loop continues.
The function is total: no error is ever raised to the caller. -/
def cleanupHierarchy (mounts : Mounts) (hirName : Path) :
    FS → Params → FS × List Path
  | fs, [] => (fs, [])
  | fs, (s, _) :: rest =>
    match lookupMount mounts s with
    | none => cleanupHierarchy mounts hirName fs rest
    | some mp =>
      if mp.isEmpty then cleanupHierarchy mounts hirName fs rest
      else
        match removeDir fs (mp ++ hirName) with
        | .ok fs1 => cleanupHierarchy mounts hirName fs1 rest
        | .error (.notExist _) => cleanupHierarchy mounts hirName fs rest
        | .error _ =>
          let r := cleanupHierarchy mounts hirName fs rest
          (r.1, (mp ++ hirName) :: r.2)

/-- setupHierarchy: run the per-subsystem loop; on any failure the deferred
function runs cleanupHierarchy on the partially mutated filesystem (the
asynchronous signal path is modelled separately below).  Returns the error
result together with the filesystem after any rollback. -/
def setupHierarchy (mounts : Mounts) (hirName : Path) (ps : Params)
    (fs : FS) : Option Err × FS :=
  match setupLoop mounts hirName fs ps with
  | (none, fs1) => (none, fs1)
  | (some e, fs1) => (some e, (cleanupHierarchy mounts hirName fs1 ps).1)

/-! ## Exit status translation (execProgram)

execProgram waits for the re-exec child; a non-nil error of type
exec.ExitError carries a syscall.WaitStatus, whose ExitStatus() on Linux is
the exit code for a normally exited child and -1 otherwise.  cmd.Wait
returns a nil error exactly when the raw wait status is 0. -/

/-- syscall.WaitStatus.Exited on Linux: the low seven bits are zero. -/
def waitStatusExited (raw : Nat) : Bool :=
  raw &&& 0x7f == 0

/-- syscall.WaitStatus.ExitStatus on Linux: the exit code byte for a
normally exited child, and -1 for any other status (in particular for a
signal-terminated child). -/
def waitStatusExitStatus (raw : Nat) : Int :=
  if waitStatusExited raw then ((raw >>> 8) &&& 0xff : Nat) else -1

/-- The exit code execProgram reports for a child whose raw wait status is
`raw`: 0 on a nil Wait error, otherwise WaitStatus.ExitStatus. -/
def execProgramExitCode (raw : Nat) : Int :=
  if raw == 0 then 0 else waitStatusExitStatus raw

/-- Modelled from the spec: the platform convention for reporting a child
terminated by signal `sig` as an exit status is 128 + sig (C3 refinement
comparison; this definition follows the words of the spec, not the code). -/
def specConventionalSignalExit (sig : Nat) : Int :=
  128 + sig

/-- Modelled from the spec: permissions granting read, write and execute to
the owner and the group and nothing to others (C9 refinement comparison;
this definition follows the words of the spec, not the code). -/
def specGrantsRwxOwnerGroupOnly (perm : Nat) : Prop :=
  perm &&& 0o700 = 0o700 ∧ perm &&& 0o070 = 0o070 ∧ perm &&& 0o007 = 0

/-! ## getTasksFiles -/

/-- getTasksFiles: the per-subsystem task-membership file paths
mountPoint/name/tasks, failing on an unmounted subsystem. -/
def getTasksFiles (mounts : Mounts) (hirName : Path) :
    Params → Except Err (List Path)
  | [] => .ok []
  | (s, _) :: rest =>
    match lookupMount mounts s with
    | none => .error (.subsysNotMounted s)
    | some mp =>
      if mp.isEmpty then .error (.subsysNotMounted s)
      else
        match getTasksFiles mounts hirName rest with
        | .error e => .error e
        | .ok fsl => .ok ((mp ++ hirName ++ ["tasks"]) :: fsl)

/-! ## Attach mode: collectPids

The /proc snapshot is an association list from directory-entry name to the
contents of that entry's stat record.  strings.Fields splits on whitespace
runs. -/

/-- strings.Fields, split into maximal runs of non-whitespace characters
(structural recursion over the character list). -/
def goFieldsAux : List Char → List Char → List String
  | [], acc => if acc.isEmpty then [] else [String.mk acc.reverse]
  | c :: rest, acc =>
    if c == ' ' || c == '\t' || c == '\n' then
      if acc.isEmpty then goFieldsAux rest []
      else String.mk acc.reverse :: goFieldsAux rest []
    else goFieldsAux rest (c :: acc)

/-- strings.Fields. -/
def goFields (s : String) : List String := goFieldsAux s.toList []

/-- isPidFile: every character of the name is a decimal digit (true for the
empty string, as in the Go rune loop). -/
def isPidFile (name : String) : Bool :=
  name.toList.all (fun c => decide ('0' ≤ c) && decide (c ≤ '9'))

/-- One /proc snapshot: directory-entry names with the contents of each
entry's stat file. -/
abbrev ProcTable := List (String × String)

/-- The pid writes at the head of collectPids: write the pid as decimal text
into every tasks file, aborting on the first write failure. -/
def writeTasksLoop (pid : String) : FS → List Path → Except Err FS
  | fs, [] => .ok fs
  | fs, f :: rest =>
    match writeFileR fs f pid with
    | .error e => .error e
    | .ok fs1 => writeTasksLoop pid fs1 rest

/-- The child-scan loop of collectPids, abstracted over the recursive call
`child` (the recursion into a matching child pid): walk the directory
entries; for each all-digit name read its stat record, and when field 3
(the parent pid) equals the current pid, recurse on field 0 (the pid).
Accessing a missing field models the Go index-out-of-range panic. -/
def collectChildrenAux (child : String → FS → Except Err (FS × List (Path × String)))
    (pid : String) : List (String × String) → FS → Except Err (FS × List (Path × String))
  | [], fs => .ok (fs, [])
  | (name, stat) :: rest, fs =>
    if isPidFile name then
      match (goFields stat).get? 3 with
      | none => .error .panicIdx
      | some par =>
        if par = pid then
          match (goFields stat).get? 0 with
          | none => .error .panicIdx
          | some childPid =>
            match child childPid fs with
            | .error e => .error e
            | .ok (fs1, tr1) =>
              match collectChildrenAux child pid rest fs1 with
              | .error e => .error e
              | .ok (fs2, tr2) => .ok (fs2, tr1 ++ tr2)
        else collectChildrenAux child pid rest fs
    else collectChildrenAux child pid rest fs

/-- collectPids: write the pid into every tasks file; when the tree flag is
set, scan the /proc snapshot for processes whose stat parent field equals
this pid and recurse into each.  Alongside the filesystem it returns the
trace of (tasks file, pid) writes performed.  The Go recursion carries no
visited set and would loop forever on a cyclic snapshot, hence the fuel. -/
def collectPids (procT : ProcTable) (tasksFiles : List Path) (tree : Bool) :
    Nat → String → FS → Except Err (FS × List (Path × String))
  | 0, _, _ => .error .noFuel
  | fuel + 1, pid, fs =>
    match writeTasksLoop pid fs tasksFiles with
    | .error e => .error e
    | .ok fs1 =>
      let base := tasksFiles.map (fun f => (f, pid))
      if tree then
        match collectChildrenAux
            (fun p fsx => collectPids procT tasksFiles tree fuel p fsx)
            pid procT fs1 with
        | .error e => .error e
        | .ok (fs2, tr) => .ok (fs2, base ++ tr)
      else .ok (fs1, base)

/-- The set of pids the claim says attach collects: the target pid, plus —
recursively — every snapshot entry whose stat parent field equals an
already-collected pid (the entry contributing its stat pid field). -/
inductive Collected (procT : ProcTable) (root : String) : String → Prop
  | base : Collected procT root root
  | step {q name stat child} : Collected procT root q →
      (name, stat) ∈ procT → isPidFile name = true →
      (goFields stat).get? 3 = some q → (goFields stat).get? 0 = some child →
      Collected procT root child

/-! ## Launch mode: the helper routine

helperMain runs in the re-exec child: write its own pid as decimal text
into every task-file path before the "--" separator, then resolve the
target with exec.LookPath and replace the process image with syscall.Exec.
Any failure path returns into main, which then calls os.Exit(1); an
out-of-bounds args[0] access is a Go runtime panic (exit status 2).
The child's filesystem effects are abstracted by a write-success oracle
together with the trace of writes performed; path lookup and exec success
are oracles likewise. -/

/-- Split at the first "--": the elements before it and the elements after
it, or none when no "--" occurs. -/
def splitAtDash : List String → Option (List String × List String)
  | [] => none
  | a :: rest =>
    if a = "--" then some ([], rest)
    else (splitAtDash rest).map (fun r => (a :: r.1, r.2))

/-- The args split the helper loop performs: task-file paths before the
first "--", remaining target argv after it.  When no "--" is present the
Go loop writes every argument and leaves args unchanged, so both
components are the whole list. -/
def helperTargets (args : List String) : List String × List String :=
  match splitAtDash args with
  | some r => r
  | none => (args, args)

/-- The write loop of helperMain: write the pid text into each file until
the first failure; returns the successful-write trace and the failing file,
if any. -/
def helperWriteLoop (writeOk : String → Bool) (pidText : String) :
    List String → List (String × String) × Option String
  | [] => ([], none)
  | f :: rest =>
    if writeOk f then
      let r := helperWriteLoop writeOk pidText rest
      ((f, pidText) :: r.1, r.2)
    else ([], some f)

/-- Outcome of the helper invocation (helperMain wrapped by main). -/
inductive HelperResult where
  /-- syscall.Exec succeeded: the process image was replaced in place. -/
  | replaced (binPath : String) (argv : List String)
  /-- helperMain returned and main ran os.Exit(1), or the runtime panicked
      (status 2). -/
  | exited (code : Nat)
deriving DecidableEq

/-- helperMain followed by main's os.Exit(1): returns the trace of
successful pid writes and the outcome. -/
def helperMain (args : List String) (pid : Nat) (writeOk : String → Bool)
    (lookPath : String → Option String) (execOk : String → Bool) :
    List (String × String) × HelperResult :=
  match helperWriteLoop writeOk (toString pid) (helperTargets args).1 with
  | (tr, some _) => (tr, .exited 1)
  | (tr, none) =>
    match (helperTargets args).2 with
    | [] => (tr, .exited 2)
    | prog :: _ =>
      match lookPath prog with
      | none => (tr, .exited 1)
      | some bin =>
        if execOk bin then (tr, .replaced bin (helperTargets args).2)
        else (tr, .exited 1)

/-! ## The signal path

setupSignalHandler subscribes SIGINT, SIGHUP and SIGTERM to a channel
(disabling their default termination behaviour) and spawns a goroutine
that, on delivery, runs cleanupHierarchy when childStarted is still false
and does nothing otherwise.  We model the code after a successful
setupHierarchy as a list of atomic main-flow actions, with at most one
signal delivered between two of them (or after all of them); the handler
body runs atomically at the delivery point.  Events record what the run
did, in order. -/

inductive Event where
  /-- The signal handler invoked cleanupHierarchy. -/
  | sigCleanup
  /-- cmd.Start in execProgram: the launch logic ran. -/
  | childLaunched
  /-- childStarted = true. -/
  | flagSet
  /-- A pid written to a tasks file (collectPids, in the parent). -/
  | wrotePid (f : Path) (pid : String)
  /-- The HierarchyName printed on stderr. -/
  | emittedName
  /-- The deferred cleanupHierarchy of initialMain ran. -/
  | deferCleanup
deriving DecidableEq

/-- The interleaving state: filesystem, the childStarted flag, and the
event log. -/
structure RunSt where
  fs : FS
  childStarted : Bool
  events : List Event
deriving DecidableEq

/-- Atomic main-flow actions after setupHierarchy has returned. -/
inductive MainAct where
  /-- cmd.Start (execProgram). -/
  | startChild
  /-- childStarted = true. -/
  | setFlag
  /-- fmt.Fprintln(os.Stderr, hirName). -/
  | emitName
  /-- One tasks-file write performed by collectPids in attach mode. -/
  | writeTask (f : Path) (pid : String)
  /-- cmd.Wait or waitNonChildPid: a blocking wait, no state change. -/
  | waitStep
deriving DecidableEq

/-- Effect of one main-flow action. -/
def applyAct (a : MainAct) (s : RunSt) : RunSt :=
  match a with
  | .startChild => { s with events := s.events ++ [.childLaunched] }
  | .setFlag => { s with childStarted := true, events := s.events ++ [.flagSet] }
  | .emitName => { s with events := s.events ++ [.emittedName] }
  | .writeTask f pid =>
    { s with fs := match writeFileR s.fs f pid with
                   | .ok fs1 => fs1
                   | .error _ => s.fs,
             events := s.events ++ [.wrotePid f pid] }
  | .waitStep => s

/-- The signal-handler goroutine body:
if !childStarted { cleanupHierarchy(hirName, params) }. -/
def sigHandler (mounts : Mounts) (hirName : Path) (ps : Params) (s : RunSt) : RunSt :=
  if s.childStarted then s
  else { s with fs := (cleanupHierarchy mounts hirName s.fs ps).1,
                events := s.events ++ [.sigCleanup] }

/-- Run the action list with an optional signal delivered immediately
before the action at the given index (an index at or past the end delivers
the signal after the last action). -/
def runActs (mounts : Mounts) (hirName : Path) (ps : Params) :
    List MainAct → Option Nat → RunSt → RunSt
  | [], none, s => s
  | [], some _, s => sigHandler mounts hirName ps s
  | a :: rest, none, s => runActs mounts hirName ps rest none (applyAct a s)
  | a :: rest, some 0, s =>
    runActs mounts hirName ps rest none (applyAct a (sigHandler mounts hirName ps s))
  | a :: rest, some (k + 1), s => runActs mounts hirName ps rest (some k) (applyAct a s)

/-- The post-setup main flow of launch mode, from execProgram: cmd.Start,
childStarted = true, print the hierarchy name, cmd.Wait. -/
def launchActs : List MainAct :=
  [.startChild, .setFlag, .emitName, .waitStep]

/-- The post-setup main flow of attach mode, from seizePid: childStarted =
true first, then the tasks-file writes of collectPids (given here by their
trace), the hierarchy name print, and the liveness-poll wait. -/
def attachActs (tr : List (Path × String)) : List MainAct :=
  .setFlag :: tr.map (fun w => .writeTask w.1 w.2) ++ [.emitName, .waitStep]

/-- A whole post-setup run: the mode's actions with an optional signal,
followed by the deferred cleanupHierarchy of initialMain. -/
def runMode (mounts : Mounts) (hirName : Path) (ps : Params)
    (acts : List MainAct) (sig : Option Nat) (fs : FS) : RunSt :=
  let s1 := runActs mounts hirName ps acts sig ⟨fs, false, []⟩
  { s1 with fs := (cleanupHierarchy mounts hirName s1.fs ps).1,
            events := s1.events ++ [.deferCleanup] }

/-! ## Basic filesystem lemmas -/

theorem writeFileR_dirs {fs : FS} {p : Path} {c : String} {fs1 : FS}
    (h : writeFileR fs p c = .ok fs1) : fs1.dirs = fs.dirs := by
  unfold writeFileR at h
  split at h
  · cases h; rfl
  · cases h

theorem mkdirR_ok {fs : FS} {p : Path} {perm : Nat}
    (h : dirExistsB fs p = false) :
    mkdirR fs p perm = .ok { fs with dirs := (p, perm) :: fs.dirs } := by
  unfold mkdirR
  rw [h]
  rfl

theorem writeFileR_ok {fs : FS} {p : Path} {c : String}
    (h : dirExistsB fs p.dropLast = true) :
    writeFileR fs p c =
      .ok { fs with files := (p, c) :: fs.files.filter (fun f => decide (f.1 ≠ p)) } := by
  unfold writeFileR
  rw [h]
  rfl

/-- find? over a filter keeping everything the predicate accepts. -/
theorem find?_filter_of_imp {α : Type} (l : List α) (p q : α → Bool)
    (h : ∀ a, p a = true → q a = true) : (l.filter q).find? p = l.find? p := by
  induction l with
  | nil => rfl
  | cons a t ih =>
    by_cases hq : q a = true
    · rw [List.filter_cons_of_pos hq]
      by_cases hp : p a = true
      · rw [List.find?_cons_of_pos _ hp, List.find?_cons_of_pos _ hp]
      · rw [List.find?_cons_of_neg _ (by simpa using hp),
          List.find?_cons_of_neg _ (by simpa using hp)]
        exact ih
    · have hp : p a = false := by
        cases hpa : p a with
        | false => rfl
        | true => exact absurd (h a hpa) hq
      rw [List.filter_cons_of_neg (by simpa using hq),
        List.find?_cons_of_neg _ (by simp [hp])]
      exact ih

theorem readFileR_writeFileR_self {fs : FS} {p : Path} {c : String} {fs1 : FS}
    (h : writeFileR fs p c = .ok fs1) : readFileR fs1 p = .ok c := by
  unfold writeFileR at h
  split at h
  · cases h
    unfold readFileR
    rw [List.find?_cons_of_pos _ (by simp)]
  · cases h

theorem readFileR_writeFileR_ne {fs : FS} {p q : Path} {c : String} {fs1 : FS}
    (h : writeFileR fs p c = .ok fs1) (hne : q ≠ p) :
    readFileR fs1 q = readFileR fs q := by
  unfold writeFileR at h
  split at h
  · cases h
    unfold readFileR
    rw [List.find?_cons_of_neg _ (by simp; exact fun hpq => (hne hpq.symm).elim)]
    rw [find?_filter_of_imp _ _ _ (fun f hf => by
      simp at hf ⊢
      rw [hf]
      exact fun hqp => hne hqp)]
  · cases h

theorem readFileR_mkdirR {fs : FS} {p : Path} {perm : Nat} {fs1 : FS}
    (h : mkdirR fs p perm = .ok fs1) : ∀ q, readFileR fs1 q = readFileR fs q := by
  unfold mkdirR at h
  split at h
  · cases h
  · cases h
    intro q
    rfl

theorem mkdirR_files {fs : FS} {p : Path} {perm : Nat} {fs1 : FS}
    (h : mkdirR fs p perm = .ok fs1) : fs1.files = fs.files := by
  unfold mkdirR at h
  split at h
  · cases h
  · cases h; rfl

theorem mkdirR_dirs {fs : FS} {p : Path} {perm : Nat} {fs1 : FS}
    (h : mkdirR fs p perm = .ok fs1) :
    fs1.dirs = (p, perm) :: fs.dirs ∧ dirExistsB fs p = false := by
  unfold mkdirR at h
  split at h
  · cases h
  · cases h
    refine ⟨rfl, ?_⟩
    simp_all

/-! ## C3: exit-code translation -/

/-- C3 counterexample: the claim says a signal-terminated child is reported
using the platform's conventional signal-exit-status encoding (128 + signal
number).  For a child killed by signal 9 the raw wait status is 9, the
convention would report 137, but execProgram returns
WaitStatus.ExitStatus = -1, so the claim as stated is false. -/
theorem c3_signal_encoding_counterexample :
    execProgramExitCode 9 = -1 ∧ specConventionalSignalExit 9 = 137 ∧
    execProgramExitCode 9 ≠ specConventionalSignalExit 9 := by
  decide

set_option maxRecDepth 4000 in
/-- C3 (amended): in launch mode the tool blocks until the child terminates
and reports the child's own exit status verbatim (a child exiting with
status 7 is reported as 7); a child that did not exit normally — in
particular one terminated by a signal — is reported as -1, not with the
conventional 128 + signal encoding. -/
theorem c3_exit_code_translation :
    (∀ c : Nat, c < 256 → execProgramExitCode (c <<< 8) = c) ∧
    (∀ raw : Nat, raw &&& 0x7f ≠ 0 → execProgramExitCode raw = -1) := by
  constructor
  · decide
  · intro raw h
    have h0 : raw ≠ 0 := by
      rintro rfl
      simp at h
    simp [execProgramExitCode, waitStatusExitStatus, waitStatusExited, h0, h]

/-- C3 witness: the amended theorem applied at exit status 7 and at the raw
wait status 9 of a signal-terminated child. -/
theorem c3_exit_code_translation_witness :
    ((7 : Nat) < 256 ∧ execProgramExitCode (7 <<< 8) = 7) ∧
    ((9 : Nat) &&& 0x7f ≠ 0 ∧ execProgramExitCode 9 = -1) :=
  ⟨⟨by decide, c3_exit_code_translation.1 7 (by decide)⟩,
   ⟨by decide, c3_exit_code_translation.2 9 (by decide)⟩⟩

/-! ## C9: directory permissions -/

/-- C9 counterexample: the claim says the hierarchy directories are created
with read, write and execute granted to the owner and the group.  A
concrete successful create run makes the directory with permission bits
0o750 = 488, which denies write (and grants only read and execute) to the
group, so the claim as stated is false. -/
theorem c9_perm_counterexample :
    (setupHierarchy [("cpu", ["cg", "cpu"])] ["h"] [("cpu", [])]
        ⟨[(["cg", "cpu"], 493)], []⟩).1 = none ∧
    dirPerm (setupHierarchy [("cpu", ["cg", "cpu"])] ["h"] [("cpu", [])]
        ⟨[(["cg", "cpu"], 493)], []⟩).2 ["cg", "cpu", "h"] = some 488 ∧
    ¬ specGrantsRwxOwnerGroupOnly 488 := by
  refine ⟨rfl, rfl, ?_⟩
  unfold specGrantsRwxOwnerGroupOnly
  decide

/-! ## C1: a signal between create and start -/

/-- C1: the claim (and spec section 4.4) says that a signal delivered after
setupHierarchy succeeded but before childStarted is set makes the process
remove the hierarchy and exit without ever reaching the launch logic.  The
code does remove the hierarchy: the handler runs cleanupHierarchy.  But
signal.Notify has disabled the default termination behaviour of SIGINT,
SIGHUP and SIGTERM, and the handler goroutine does not exit the process, so
the main flow continues into execProgram: in the run below the signal is
delivered in exactly that window, the hierarchy directory is removed by the
handler (third conjunct), and the event trace nevertheless contains
childLaunched — the launch logic is reached — right after sigCleanup.  This
demonstrates the divergence between the code and the claim. -/
theorem c1_signal_cleanup_still_launches :
    (setupHierarchy [("cpu", ["cg", "cpu"])] ["h"] [("cpu", [])]
        ⟨[(["cg", "cpu"], 493)], []⟩).1 = none ∧
    (runMode [("cpu", ["cg", "cpu"])] ["h"] [("cpu", [])] launchActs (some 0)
        (setupHierarchy [("cpu", ["cg", "cpu"])] ["h"] [("cpu", [])]
          ⟨[(["cg", "cpu"], 493)], []⟩).2).events =
      [Event.sigCleanup, Event.childLaunched, Event.flagSet,
       Event.emittedName, Event.deferCleanup] ∧
    dirExistsB (sigHandler [("cpu", ["cg", "cpu"])] ["h"] [("cpu", [])]
        ⟨(setupHierarchy [("cpu", ["cg", "cpu"])] ["h"] [("cpu", [])]
            ⟨[(["cg", "cpu"], 493)], []⟩).2, false, []⟩).fs
      ["cg", "cpu", "h"] = false :=
  ⟨rfl, rfl, rfl⟩

/-! ## C8: the helper routine -/

theorem helperWriteLoop_all_ok {writeOk : String → Bool} {pidText : String} :
    ∀ l : List String, (∀ f ∈ l, writeOk f = true) →
      helperWriteLoop writeOk pidText l = (l.map (fun f => (f, pidText)), none) := by
  intro l
  induction l with
  | nil => intro _; rfl
  | cons f rest ih =>
    intro h
    have hf : writeOk f = true := h f (by simp)
    have hr := ih (fun g hg => h g (by simp [hg]))
    simp [helperWriteLoop, hf, hr]

theorem helperWriteLoop_none {writeOk : String → Bool} {pidText : String} :
    ∀ l : List String, (helperWriteLoop writeOk pidText l).2 = none →
      ∀ f ∈ l, writeOk f = true := by
  intro l
  induction l with
  | nil => intro _ f hf; cases hf
  | cons g rest ih =>
    intro h f hf
    by_cases hg : writeOk g = true
    · simp only [helperWriteLoop, hg, if_true] at h
      rcases List.mem_cons.mp hf with hf | hf
      · exact hf ▸ hg
      · exact ih h f hf
    · simp only [helperWriteLoop, hg, if_false, Bool.false_eq_true] at h
      cases h

theorem helperWriteLoop_trace {writeOk : String → Bool} {pidText : String} :
    ∀ l : List String, ∀ w ∈ (helperWriteLoop writeOk pidText l).1,
      w.1 ∈ l ∧ w.2 = pidText := by
  intro l
  induction l with
  | nil => intro w hw; cases hw
  | cons g rest ih =>
    intro w hw
    by_cases hg : writeOk g = true
    · simp only [helperWriteLoop, hg, if_true] at hw
      rcases List.mem_cons.mp hw with hw | hw
      · cases hw; exact ⟨by simp, rfl⟩
      · rcases ih w hw with ⟨h1, h2⟩
        exact ⟨by simp [h1], h2⟩
    · simp only [helperWriteLoop, hg, if_false, Bool.false_eq_true] at hw
      cases hw

/-- C8: the helper routine writes its own pid as decimal text into every
task-membership file path received before the separator (every trace entry
is such a write, and on the all-successful path every such file is written,
in order), then resolves the target via the search path and replaces the
process image with exactly the remaining argv; whenever a task-file write
fails, the target cannot be located, or the exec fails, the helper
terminates with a non-zero status and the image is never replaced. -/
theorem c8_helper_routine (args : List String) (pid : Nat) (writeOk : String → Bool)
    (lookPath : String → Option String) (execOk : String → Bool) :
    (∀ w ∈ (helperMain args pid writeOk lookPath execOk).1,
        w.1 ∈ (helperTargets args).1 ∧ w.2 = toString pid) ∧
    ((∀ f ∈ (helperTargets args).1, writeOk f = true) →
      ∀ prog rest, (helperTargets args).2 = prog :: rest →
      ∀ bin, lookPath prog = some bin → execOk bin = true →
      helperMain args pid writeOk lookPath execOk =
        ((helperTargets args).1.map (fun f => (f, toString pid)),
          HelperResult.replaced bin (prog :: rest))) ∧
    (∀ bin argv, (helperMain args pid writeOk lookPath execOk).2 =
        HelperResult.replaced bin argv →
      (∀ f ∈ (helperTargets args).1, writeOk f = true) ∧
      argv = (helperTargets args).2 ∧
      ∃ prog rest, (helperTargets args).2 = prog :: rest ∧
        lookPath prog = some bin ∧ execOk bin = true) ∧
    ((∃ bin argv, (helperMain args pid writeOk lookPath execOk).2 =
        HelperResult.replaced bin argv) ∨
      ∃ code, (helperMain args pid writeOk lookPath execOk).2 =
        HelperResult.exited code ∧ code ≠ 0) := by
  rcases hw : helperWriteLoop writeOk (toString pid) (helperTargets args).1
    with ⟨tr, fail⟩
  have htr : ∀ w ∈ tr, w.1 ∈ (helperTargets args).1 ∧ w.2 = toString pid := by
    intro w hmem
    exact helperWriteLoop_trace _ w (by rw [hw]; exact hmem)
  refine ⟨?_, ?_, ?_, ?_⟩
  · cases fail with
    | some f => simpa [helperMain, hw] using htr
    | none =>
      rcases ht : (helperTargets args).2 with _ | ⟨prog, rest⟩
      · simpa [helperMain, hw, ht] using htr
      · rcases hl : lookPath prog with _ | b
        · simpa [helperMain, hw, ht, hl] using htr
        · by_cases he : execOk b = true
          · simpa [helperMain, hw, ht, hl, he] using htr
          · simpa [helperMain, hw, ht, hl, he] using htr
  · intro hall prog rest ht bin hl he
    have := @helperWriteLoop_all_ok writeOk (toString pid) _ hall
    simp [helperMain, this, ht, hl, he]
  · intro bin argv h
    cases fail with
    | some f => simp [helperMain, hw] at h
    | none =>
      rcases ht : (helperTargets args).2 with _ | ⟨prog, rest⟩
      · simp [helperMain, hw, ht] at h
      · rcases hl : lookPath prog with _ | b
        · simp [helperMain, hw, ht, hl] at h
        · by_cases he : execOk b = true
          · simp only [helperMain, hw, ht, hl, he, if_true] at h
            have hb : b = bin := by cases h; rfl
            have hargv : argv = prog :: rest := by cases h; rfl
            exact ⟨helperWriteLoop_none _ (by rw [hw]), hargv,
              prog, rest, rfl, hb ▸ hl, hb ▸ he⟩
          · simp [helperMain, hw, ht, hl, he] at h
  · cases fail with
    | some f =>
      right
      exact ⟨1, by simp [helperMain, hw], by decide⟩
    | none =>
      rcases ht : (helperTargets args).2 with _ | ⟨prog, rest⟩
      · right
        exact ⟨2, by simp [helperMain, hw, ht], by decide⟩
      · rcases hl : lookPath prog with _ | b
        · right
          exact ⟨1, by simp [helperMain, hw, ht, hl], by decide⟩
        · by_cases he : execOk b = true
          · left
            exact ⟨b, prog :: rest, by simp [helperMain, hw, ht, hl, he]⟩
          · right
            exact ⟨1, by simp [helperMain, hw, ht, hl, he], by decide⟩

/-- C8 witness: the theorem applied to a concrete helper invocation with
two task files, a separator, and a resolvable target. -/
theorem c8_helper_routine_witness :
    helperMain ["t1", "t2", "--", "prog", "a1"] 42 (fun _ => true)
        (fun s => some s) (fun _ => true) =
      ([("t1", "42"), ("t2", "42")], HelperResult.replaced "prog" ["prog", "a1"]) :=
  (c8_helper_routine ["t1", "t2", "--", "prog", "a1"] 42 (fun _ => true)
      (fun s => some s) (fun _ => true)).2.1
    (by intro f _; rfl) "prog" ["a1"] rfl "prog" rfl rfl

/-! ## C10: attach sets the flag before any write -/

/-- The events a single action contributes. -/
def evOf : MainAct → List Event
  | .startChild => [.childLaunched]
  | .setFlag => [.flagSet]
  | .emitName => [.emittedName]
  | .writeTask f p => [.wrotePid f p]
  | .waitStep => []

/-- The events an action list contributes. -/
def evsOf : List MainAct → List Event
  | [] => []
  | a :: rest => evOf a ++ evsOf rest

theorem applyAct_events (a : MainAct) (s : RunSt) :
    (applyAct a s).events = s.events ++ evOf a := by
  cases a <;> simp [applyAct, evOf]

theorem applyAct_flag {a : MainAct} {s : RunSt} (h : s.childStarted = true) :
    (applyAct a s).childStarted = true := by
  cases a <;> simp [applyAct, h]

/-- Once childStarted is set, a pending signal has no effect at all: the
handler body is skipped wherever it fires. -/
theorem runActs_sig_noop (mounts : Mounts) (hirName : Path) (ps : Params) :
    ∀ (acts : List MainAct) (sig : Option Nat) (s : RunSt),
      s.childStarted = true →
      runActs mounts hirName ps acts sig s = runActs mounts hirName ps acts none s := by
  intro acts
  induction acts with
  | nil =>
    intro sig s h
    cases sig with
    | none => rfl
    | some k => simp [runActs, sigHandler, h]
  | cons a rest ih =>
    intro sig s h
    cases sig with
    | none => rfl
    | some k =>
      cases k with
      | zero =>
        show runActs mounts hirName ps rest none
            (applyAct a (sigHandler mounts hirName ps s)) = _
        rw [show sigHandler mounts hirName ps s = s from by simp [sigHandler, h]]
        rfl
      | succ j =>
        show runActs mounts hirName ps rest (some j) (applyAct a s) = _
        exact ih (some j) (applyAct a s) (applyAct_flag h)

theorem runActs_none_events (mounts : Mounts) (hirName : Path) (ps : Params) :
    ∀ (acts : List MainAct) (s : RunSt),
      (runActs mounts hirName ps acts none s).events = s.events ++ evsOf acts := by
  intro acts
  induction acts with
  | nil => intro s; simp [runActs, evsOf]
  | cons a rest ih =>
    intro s
    show (runActs mounts hirName ps rest none (applyAct a s)).events = _
    rw [ih (applyAct a s), applyAct_events]
    simp [evsOf]

theorem evsOf_writeTasks (tr : List (Path × String)) :
    evsOf (tr.map (fun w => MainAct.writeTask w.1 w.2) ++ [.emitName, .waitStep]) =
      tr.map (fun w => Event.wrotePid w.1 w.2) ++ [Event.emittedName] := by
  induction tr with
  | nil => rfl
  | cons w rest ih => simp [evsOf, evOf, ih]

/-- C10: in attach mode the childStarted flag is set by the very first
action of seizePid, before any pid is written to any tasks file (the event
trace of the run is flagSet, then the pid writes in order, then the name
emission, then the deferred teardown); consequently a signal delivered at
any point from then on — in particular during the task-file writes and
before the hierarchy name is emitted — is a complete no-op: the run equals
the signal-free run, the handler never invokes cleanupHierarchy, and the
hierarchy is torn down only by the normal deferred cleanup. -/
theorem c10_attach_flag_first (mounts : Mounts) (hirName : Path) (ps : Params)
    (tr : List (Path × String)) (fs : FS) (k : Nat) (hk : 1 ≤ k) :
    runMode mounts hirName ps (attachActs tr) (some k) fs =
      runMode mounts hirName ps (attachActs tr) none fs ∧
    Event.sigCleanup ∉ (runMode mounts hirName ps (attachActs tr) (some k) fs).events ∧
    (runMode mounts hirName ps (attachActs tr) none fs).events =
      Event.flagSet :: tr.map (fun w => Event.wrotePid w.1 w.2) ++
        [Event.emittedName, Event.deferCleanup] := by
  have hrun : runActs mounts hirName ps (attachActs tr) (some k) ⟨fs, false, []⟩ =
      runActs mounts hirName ps (attachActs tr) none ⟨fs, false, []⟩ := by
    cases k with
    | zero => exact absurd hk (by decide)
    | succ j =>
      show runActs mounts hirName ps
          (tr.map (fun w => MainAct.writeTask w.1 w.2) ++ [.emitName, .waitStep])
          (some j) (applyAct .setFlag ⟨fs, false, []⟩) = _
      exact runActs_sig_noop mounts hirName ps _ (some j) _ rfl
  have hev : (runActs mounts hirName ps (attachActs tr) none ⟨fs, false, []⟩).events =
      Event.flagSet :: tr.map (fun w => Event.wrotePid w.1 w.2) ++ [Event.emittedName] := by
    rw [runActs_none_events]
    show [] ++ evsOf (attachActs tr) = _
    rw [List.nil_append]
    show evOf .setFlag ++
        evsOf (tr.map (fun w => MainAct.writeTask w.1 w.2) ++ [.emitName, .waitStep]) = _
    rw [evsOf_writeTasks]
    rfl
  have hmode : runMode mounts hirName ps (attachActs tr) (some k) fs =
      runMode mounts hirName ps (attachActs tr) none fs := by
    unfold runMode
    rw [hrun]
  refine ⟨hmode, ?_, ?_⟩
  · rw [hmode]
    show Event.sigCleanup ∉
      (runActs mounts hirName ps (attachActs tr) none ⟨fs, false, []⟩).events ++
        [Event.deferCleanup]
    rw [hev]
    simp
  · show (runActs mounts hirName ps (attachActs tr) none ⟨fs, false, []⟩).events ++
        [Event.deferCleanup] = _
    rw [hev]
    simp

/-- C10 witness: the theorem applied to a concrete attach run with one
tasks-file write and the signal delivered right after the flag is set. -/
theorem c10_attach_flag_first_witness :
    (1 : Nat) ≤ 1 ∧
    (runMode [("cpu", ["cg", "cpu"])] ["h"] [("cpu", [])]
        (attachActs [(["cg", "cpu", "h", "tasks"], "3")]) (some 1)
        ⟨[(["cg", "cpu"], 493)], []⟩ =
      runMode [("cpu", ["cg", "cpu"])] ["h"] [("cpu", [])]
        (attachActs [(["cg", "cpu", "h", "tasks"], "3")]) none
        ⟨[(["cg", "cpu"], 493)], []⟩ ∧
    Event.sigCleanup ∉ (runMode [("cpu", ["cg", "cpu"])] ["h"] [("cpu", [])]
        (attachActs [(["cg", "cpu", "h", "tasks"], "3")]) (some 1)
        ⟨[(["cg", "cpu"], 493)], []⟩).events ∧
    (runMode [("cpu", ["cg", "cpu"])] ["h"] [("cpu", [])]
        (attachActs [(["cg", "cpu", "h", "tasks"], "3")]) none
        ⟨[(["cg", "cpu"], 493)], []⟩).events =
      Event.flagSet :: [((["cg", "cpu", "h", "tasks"] : Path), "3")].map
          (fun w => Event.wrotePid w.1 w.2) ++
        [Event.emittedName, Event.deferCleanup]) :=
  ⟨Nat.le_refl 1,
   c10_attach_flag_first [("cpu", ["cg", "cpu"])] ["h"] [("cpu", [])]
     [(["cg", "cpu", "h", "tasks"], "3")] ⟨[(["cg", "cpu"], 493)], []⟩ 1 (Nat.le_refl 1)⟩

/-! ## Path and file helper lemmas -/

theorem dropLast_snoc {α : Type} (l : List α) (a : α) : (l ++ [a]).dropLast = l := by
  simp

theorem snoc_ne_snoc_of_ne {α : Type} {a b : α} (l1 l2 : List α) (h : a ≠ b) :
    l1 ++ [a] ≠ l2 ++ [b] := by
  intro he
  have h2 := congrArg List.getLast? he
  simp [List.getLast?_concat] at h2
  exact h h2

theorem readFileR_files_eq {fs1 fs : FS} (h : fs1.files = fs.files) (p : Path) :
    readFileR fs1 p = readFileR fs p := by
  unfold readFileR
  rw [h]

/-! ## Setup-loop structure lemmas -/

theorem writeMandatory_dirs (hirPath : Path) (subsys : String) :
    ∀ (l : List String) (fs : FS),
      ((writeMandatory hirPath subsys fs l).2).dirs = fs.dirs := by
  intro l
  induction l with
  | nil => intro fs; rfl
  | cons param rest ih =>
    intro fs
    unfold writeMandatory
    split
    · rfl
    · split
      · rfl
      · rename_i buf fs1 hw
        rw [ih fs1, writeFileR_dirs hw]

theorem writeParamValues_dirs (hirPath : Path) (subsys : String) :
    ∀ (l : List (String × String)) (fs : FS),
      ((writeParamValues hirPath subsys fs l).2).dirs = fs.dirs := by
  intro l
  induction l with
  | nil => intro fs; rfl
  | cons pv rest ih =>
    intro fs
    unfold writeParamValues
    split
    · rfl
    · rename_i fs1 hw
      rw [ih fs1, writeFileR_dirs hw]

/-- A successful setupSubsys resolves a non-empty mount path, creates the
hierarchy directory — fresh, with permission bits 0o750 — and leaves the
directory table exactly extended by it. -/
theorem setupSubsys_none {mounts : Mounts} {hirName : Path} {fs : FS}
    {s : String} {vs : List (String × String)} {fs1 : FS}
    (h : setupSubsys mounts hirName fs s vs = (none, fs1)) :
    ∃ mp, lookupMount mounts s = some mp ∧ mp.isEmpty = false ∧
      dirExistsB fs (mp ++ hirName) = false ∧
      fs1.dirs = ((mp ++ hirName), 0o750) :: fs.dirs := by
  unfold setupSubsys at h
  split at h
  · cases h
  · rename_i mp hm
    split at h
    · cases h
    · rename_i hemp
      split at h
      · cases h
      · rename_i fsk hk
        rcases mkdirR_dirs hk with ⟨hkd, hkfresh⟩
        refine ⟨mp, hm, by simpa using hemp, hkfresh, ?_⟩
        split at h
        · cases h
        · rename_i fs2 hstep
          have hfs2 : fs2.dirs = fsk.dirs := by
            rcases hlm : lookupMand s with _ | mands
            · rw [hlm] at hstep
              have hred : ((none : Option Err), fsk) = (none, fs2) := hstep
              cases hred
              rfl
            · rw [hlm] at hstep
              have hred : writeMandatory (mp ++ hirName) s fsk mands = (none, fs2) :=
                hstep
              have hq := writeMandatory_dirs (mp ++ hirName) s mands fsk
              rw [hred] at hq
              exact hq
          have hwv := writeParamValues_dirs (mp ++ hirName) s vs fs2
          rw [h] at hwv
          rw [hwv, hfs2, hkd]

/-- dirPerm through a one-directory extension. -/
theorem dirPerm_ext {fs1 fs : FS} {q : Path} {perm : Nat}
    (h : fs1.dirs = (q, perm) :: fs.dirs) (p : Path) :
    dirPerm fs1 p = if q = p then some perm else dirPerm fs p := by
  unfold dirPerm
  rw [h]
  by_cases hqp : q = p
  · rw [if_pos hqp, List.find?_cons_of_pos _ (by simp [hqp])]
    rfl
  · rw [if_neg hqp, List.find?_cons_of_neg _ (by simp [hqp])]

theorem dirExistsB_ext {fs1 fs : FS} {q : Path} {perm : Nat}
    (h : fs1.dirs = (q, perm) :: fs.dirs) (p : Path) :
    dirExistsB fs1 p = (decide (q = p) || dirExistsB fs p) := by
  unfold dirExistsB
  rw [h]
  simp [List.any_cons]

/-- Along a successful setupLoop, every subsystem of the parameter set with
a non-empty mount path ends up with its hierarchy directory present with
permission bits 0o750, and directories that already existed keep their
permission entry. -/
theorem setupLoop_none_perm (mounts : Mounts) (hirName : Path) :
    ∀ (ps : Params) (fs fs1 : FS),
      setupLoop mounts hirName fs ps = (none, fs1) →
      (∀ s vs, (s, vs) ∈ ps → ∀ mp, lookupMount mounts s = some mp →
        mp.isEmpty = false → dirPerm fs1 (mp ++ hirName) = some 0o750) ∧
      (∀ p, dirExistsB fs p = true →
        dirPerm fs1 p = dirPerm fs p ∧ dirExistsB fs1 p = true) := by
  intro ps
  induction ps with
  | nil =>
    intro fs fs1 h
    cases h
    exact ⟨fun s vs hmem => absurd hmem (List.not_mem_nil _), fun p hp => ⟨rfl, hp⟩⟩
  | cons sv rest ih =>
    intro fs fs1 h
    unfold setupLoop at h
    rcases hs : setupSubsys mounts hirName fs sv.1 sv.2 with ⟨e0, fsh⟩
    rw [hs] at h
    rcases e0 with _ | e0
    · rcases setupSubsys_none hs with ⟨mp, hmp, hemp, hfresh, hdirs⟩
      rcases ih fsh fs1 h with ⟨ih1, ih2⟩
      constructor
      · intro s vs hmem mp2 hmp2 hemp2
        rcases List.mem_cons.mp hmem with hmem | hmem
        · have hs1 : s = sv.1 := by rw [← hmem]
          rw [hs1] at hmp2
          rw [hmp] at hmp2
          injection hmp2 with hmp2
          subst hmp2
          have hex : dirExistsB fsh (mp ++ hirName) = true := by
            rw [dirExistsB_ext hdirs]
            simp
          have hperm : dirPerm fsh (mp ++ hirName) = some 0o750 := by
            rw [dirPerm_ext hdirs, if_pos rfl]
          rw [(ih2 _ hex).1, hperm]
        · exact ih1 s vs hmem mp2 hmp2 hemp2
      · intro p hp
        have hqp : mp ++ hirName ≠ p := by
          intro hqq
          rw [hqq] at hfresh
          rw [hp] at hfresh
          cases hfresh
        have hperm : dirPerm fsh p = dirPerm fs p := by
          rw [dirPerm_ext hdirs, if_neg hqp]
        have hex : dirExistsB fsh p = true := by
          rw [dirExistsB_ext hdirs, hp]
          simp
        rcases ih2 p hex with ⟨i1, i2⟩
        exact ⟨i1.trans hperm, i2⟩
    · cases h

/-- C9 (amended): create makes each per-subsystem hierarchy directory with
permission bits 0o750 — read, write and execute for the owner, read and
execute but not write for the group, and no permission for others (so the
claim's "read, write, and execute to owner and group" overstates the group
rights). -/
theorem c9_perm_0750 (mounts : Mounts) (hirName : Path) (ps : Params) (fs : FS)
    (h : (setupHierarchy mounts hirName ps fs).1 = none) :
    ∀ s vs, (s, vs) ∈ ps → ∀ mp, lookupMount mounts s = some mp →
      mp.isEmpty = false →
      dirPerm (setupHierarchy mounts hirName ps fs).2 (mp ++ hirName) = some 0o750 ∧
      (0o750 &&& 0o700 = 0o700 ∧ 0o750 &&& 0o070 = 0o050 ∧ 0o750 &&& 0o007 = 0) := by
  intro s vs hmem mp hmp hemp
  unfold setupHierarchy at h ⊢
  rcases hl : setupLoop mounts hirName fs ps with ⟨e0, fs1⟩
  rcases e0 with _ | e0
  · refine ⟨?_, by decide, by decide, by decide⟩
    exact (setupLoop_none_perm mounts hirName ps fs fs1 hl).1 s vs hmem mp hmp hemp
  · rw [hl] at h
    simp at h

/-- C9 witness: a concrete successful create run, showing the 0o750
directory for the cpu subsystem. -/
theorem c9_perm_0750_witness :
    (setupHierarchy [("cpu", ["cg", "cpu"])] ["h"] [("cpu", [])]
        ⟨[(["cg", "cpu"], 493)], []⟩).1 = none ∧
    (dirPerm (setupHierarchy [("cpu", ["cg", "cpu"])] ["h"] [("cpu", [])]
        ⟨[(["cg", "cpu"], 493)], []⟩).2 (["cg", "cpu"] ++ ["h"]) = some 0o750 ∧
      (0o750 &&& 0o700 = 0o700 ∧ 0o750 &&& 0o070 = 0o050 ∧ 0o750 &&& 0o007 = 0)) :=
  ⟨rfl,
   c9_perm_0750 [("cpu", ["cg", "cpu"])] ["h"] [("cpu", [])]
     ⟨[(["cg", "cpu"], 493)], []⟩ rfl "cpu" [] (by simp) ["cg", "cpu"] rfl rfl⟩

/-! ## C4: mandatory-parameter inheritance -/

/-- For a mounted subsystem with a fresh target directory, one iteration of
the setupHierarchy loop is exactly: create the directory, run the
mandatory-parameter inheritance, then write the caller parameters. -/
theorem setupSubsys_eq {mounts : Mounts} {hirName : Path} {fs : FS}
    {s : String} {mp : Path} (vs : List (String × String))
    (hmp : lookupMount mounts s = some mp) (hemp : mp.isEmpty = false)
    (hfresh : dirExistsB fs (mp ++ hirName) = false) :
    setupSubsys mounts hirName fs s vs =
      match (match lookupMand s with
             | some mands => writeMandatory (mp ++ hirName) s
                 { fs with dirs := ((mp ++ hirName), 0o750) :: fs.dirs } mands
             | none => (none, { fs with dirs := ((mp ++ hirName), 0o750) :: fs.dirs })) with
      | (some e, fs2) => (some e, fs2)
      | (none, fs2) => writeParamValues (mp ++ hirName) s fs2 vs := by
  unfold setupSubsys
  split
  · rename_i hnone
    rw [hmp] at hnone
    cases hnone
  · rename_i mp2 hm2
    rw [hmp] at hm2
    injection hm2 with hm2
    subst hm2
    rw [if_neg (by simp [hemp])]
    rw [mkdirR_ok hfresh]

/-- One successful iteration of the mandatory-parameter loop: read the
parent value, write it into the new directory, continue on the rest. -/
theorem writeMandatory_cons_ok {hirPath : Path} {subsys param : String}
    (rest : List String) {fs fsW : FS} {buf : String}
    (hr : readFileR fs (hirPath.dropLast ++ [subsys ++ "." ++ param]) = .ok buf)
    (hw : writeFileR fs (hirPath ++ [subsys ++ "." ++ param]) buf = .ok fsW) :
    writeMandatory hirPath subsys fs (param :: rest) =
      writeMandatory hirPath subsys fsW rest := by
  conv_lhs => rw [writeMandatory.eq_def]
  simp only [hr, hw]

/-- C4: in create, for the cpuset subsystem of the MandatoryParameterTable
(its only entry, with parameters cpus and mems), the current values of
cpuset.cpus and cpuset.mems are read from the parent hierarchy directory —
one path level up from the new directory — and written verbatim into the
newly created directory, and only after that does the loop write the
caller-supplied parameters for the subsystem: setupSubsys factors through
the post-inheritance state fs2. -/
theorem c4_mandatory_inheritance (mounts : Mounts) (hirName : Path) (mp : Path)
    (vs : List (String × String)) (fs : FS) (vc vm : String)
    (hmp : lookupMount mounts "cpuset" = some mp) (hemp : mp.isEmpty = false)
    (hfresh : dirExistsB fs (mp ++ hirName) = false)
    (hc : readFileR fs ((mp ++ hirName).dropLast ++ ["cpuset.cpus"]) = .ok vc)
    (hm : readFileR fs ((mp ++ hirName).dropLast ++ ["cpuset.mems"]) = .ok vm) :
    ∃ fs2,
      writeMandatory (mp ++ hirName) "cpuset"
          { fs with dirs := ((mp ++ hirName), 0o750) :: fs.dirs } ["cpus", "mems"] =
        (none, fs2) ∧
      readFileR fs2 ((mp ++ hirName) ++ ["cpuset.cpus"]) = .ok vc ∧
      readFileR fs2 ((mp ++ hirName) ++ ["cpuset.mems"]) = .ok vm ∧
      setupSubsys mounts hirName fs "cpuset" vs =
        writeParamValues (mp ++ hirName) "cpuset" fs2 vs := by
  have hkfiles :
      ({ fs with dirs := ((mp ++ hirName), 0o750) :: fs.dirs } : FS).files = fs.files :=
    rfl
  have hdtgt : dirExistsB { fs with dirs := ((mp ++ hirName), 0o750) :: fs.dirs }
      (mp ++ hirName) = true := by
    simp [dirExistsB]
  have hr1 : readFileR { fs with dirs := ((mp ++ hirName), 0o750) :: fs.dirs }
      ((mp ++ hirName).dropLast ++ ["cpuset.cpus"]) = .ok vc := by
    rw [readFileR_files_eq hkfiles]
    exact hc
  obtain ⟨fsB, hw1⟩ : ∃ fsB,
      writeFileR { fs with dirs := ((mp ++ hirName), 0o750) :: fs.dirs }
        ((mp ++ hirName) ++ ["cpuset.cpus"]) vc = .ok fsB :=
    ⟨_, writeFileR_ok (by rw [dropLast_snoc]; exact hdtgt)⟩
  have hr2 : readFileR fsB ((mp ++ hirName).dropLast ++ ["cpuset.mems"]) = .ok vm := by
    rw [readFileR_writeFileR_ne hw1
      (snoc_ne_snoc_of_ne _ _ (by decide : ("cpuset.mems" : String) ≠ "cpuset.cpus"))]
    rw [readFileR_files_eq hkfiles]
    exact hm
  obtain ⟨fsM, hw2⟩ : ∃ fsM,
      writeFileR fsB ((mp ++ hirName) ++ ["cpuset.mems"]) vm = .ok fsM := by
    refine ⟨_, writeFileR_ok ?_⟩
    rw [dropLast_snoc]
    unfold dirExistsB
    rw [writeFileR_dirs hw1]
    exact hdtgt
  have hwm : writeMandatory (mp ++ hirName) "cpuset"
      { fs with dirs := ((mp ++ hirName), 0o750) :: fs.dirs } ["cpus", "mems"] =
      (none, fsM) := by
    rw [writeMandatory_cons_ok ["mems"] hr1 hw1,
      writeMandatory_cons_ok [] hr2 hw2]
    rfl
  refine ⟨fsM, hwm, ?_, ?_, ?_⟩
  · rw [readFileR_writeFileR_ne hw2
      (snoc_ne_snoc_of_ne _ _ (by decide : ("cpuset.cpus" : String) ≠ "cpuset.mems"))]
    exact readFileR_writeFileR_self hw1
  · exact readFileR_writeFileR_self hw2
  · rw [setupSubsys_eq vs hmp hemp hfresh]
    simp only [show lookupMand "cpuset" = some ["cpus", "mems"] from rfl, hwm]

/-- C4 witness: the theorem applied to a parent hierarchy whose cpuset.cpus
is 0-3 and cpuset.mems is 0. -/
theorem c4_mandatory_inheritance_witness :
    (readFileR ⟨[(["cg", "cpuset"], 493)],
        [(["cg", "cpuset", "cpuset.cpus"], "0-3"), (["cg", "cpuset", "cpuset.mems"], "0")]⟩
        ((["cg", "cpuset"] ++ ["h"] : Path).dropLast ++ ["cpuset.cpus"]) = .ok "0-3") ∧
    ∃ fs2,
      writeMandatory (["cg", "cpuset"] ++ ["h"]) "cpuset"
          { (⟨[(["cg", "cpuset"], 493)],
              [(["cg", "cpuset", "cpuset.cpus"], "0-3"),
               (["cg", "cpuset", "cpuset.mems"], "0")]⟩ : FS) with
            dirs := ((["cg", "cpuset"] ++ ["h"] : Path), 0o750) ::
              (⟨[(["cg", "cpuset"], 493)],
                [(["cg", "cpuset", "cpuset.cpus"], "0-3"),
                 (["cg", "cpuset", "cpuset.mems"], "0")]⟩ : FS).dirs }
          ["cpus", "mems"] = (none, fs2) ∧
      readFileR fs2 ((["cg", "cpuset"] ++ ["h"] : Path) ++ ["cpuset.cpus"]) = .ok "0-3" ∧
      readFileR fs2 ((["cg", "cpuset"] ++ ["h"] : Path) ++ ["cpuset.mems"]) = .ok "0" ∧
      setupSubsys [("cpuset", ["cg", "cpuset"])] ["h"]
          ⟨[(["cg", "cpuset"], 493)],
            [(["cg", "cpuset", "cpuset.cpus"], "0-3"),
             (["cg", "cpuset", "cpuset.mems"], "0")]⟩ "cpuset" [("cpus", "0-1")] =
        writeParamValues (["cg", "cpuset"] ++ ["h"]) "cpuset" fs2 [("cpus", "0-1")] :=
  ⟨rfl,
   c4_mandatory_inheritance [("cpuset", ["cg", "cpuset"])] ["h"] ["cg", "cpuset"]
     [("cpus", "0-1")]
     ⟨[(["cg", "cpuset"], 493)],
       [(["cg", "cpuset", "cpuset.cpus"], "0-3"), (["cg", "cpuset", "cpuset.mems"], "0")]⟩
     "0-3" "0" rfl rfl rfl rfl rfl⟩

/-! ## C7: cleanupHierarchy is best-effort -/

theorem removeDir_missing {fs : FS} {p : Path} (h : dirExistsB fs p = false) :
    removeDir fs p = .error (.notExist p) := by
  simp [removeDir, h]

theorem removeDir_blocked {fs : FS} {p : Path} (h1 : dirExistsB fs p = true)
    (h2 : blockedB fs p = true) : removeDir fs p = .error (.notEmpty p) := by
  simp [removeDir, h1, h2]

theorem removeDir_ok {fs : FS} {p : Path} (h1 : dirExistsB fs p = true)
    (h2 : blockedB fs p = false) :
    removeDir fs p = .ok
      { dirs := fs.dirs.filter (fun d => decide (d.1 ≠ p)),
        files := fs.files.filter (fun f => decide (f.1.dropLast ≠ p)) } := by
  simp [removeDir, h1, h2]

theorem dirExistsB_false_iff {fs : FS} {p : Path} :
    dirExistsB fs p = false ↔ ∀ d ∈ fs.dirs, d.1 ≠ p := by
  simp [dirExistsB]

theorem dirExistsB_true_iff {fs : FS} {p : Path} :
    dirExistsB fs p = true ↔ ∃ d ∈ fs.dirs, d.1 = p := by
  simp [dirExistsB]

theorem strictlyBelow_iff {p q : Path} :
    strictlyBelow p q = true ↔ p <+: q ∧ p ≠ q := by
  simp [strictlyBelow, List.isPrefixOf_iff_prefix]

theorem blockedB_true_iff {fs : FS} {p : Path} :
    blockedB fs p = true ↔ ∃ d ∈ fs.dirs, p <+: d.1 ∧ p ≠ d.1 := by
  simp [blockedB, List.any_eq_true, strictlyBelow_iff]

/-- The cleanup step on a subsystem with no registered mount path. -/
theorem cleanup_cons_none {mounts : Mounts}
    {sv : String × List (String × String)} (hirName : Path) (rest : Params)
    (fs : FS) (h : lookupMount mounts sv.1 = none) :
    cleanupHierarchy mounts hirName fs (sv :: rest) =
      cleanupHierarchy mounts hirName fs rest := by
  obtain ⟨s, vs⟩ := sv
  conv_lhs => rw [cleanupHierarchy.eq_def]
  simp only at h
  simp [h]

/-- The cleanup step on a subsystem with an empty mount path. -/
theorem cleanup_cons_empty {mounts : Mounts} {mp : Path}
    {sv : String × List (String × String)} (hirName : Path) (rest : Params)
    (fs : FS) (h : lookupMount mounts sv.1 = some mp) (he : mp.isEmpty = true) :
    cleanupHierarchy mounts hirName fs (sv :: rest) =
      cleanupHierarchy mounts hirName fs rest := by
  obtain ⟨s, vs⟩ := sv
  conv_lhs => rw [cleanupHierarchy.eq_def]
  simp only at h
  simp [h, he]

/-- The cleanup step when the removal succeeds. -/
theorem cleanup_cons_ok {mounts : Mounts} {mp : Path} {fs fs1 : FS}
    {sv : String × List (String × String)} (hirName : Path) (rest : Params)
    (h : lookupMount mounts sv.1 = some mp) (he : mp.isEmpty = false)
    (hr : removeDir fs (mp ++ hirName) = .ok fs1) :
    cleanupHierarchy mounts hirName fs (sv :: rest) =
      cleanupHierarchy mounts hirName fs1 rest := by
  obtain ⟨s, vs⟩ := sv
  conv_lhs => rw [cleanupHierarchy.eq_def]
  simp only at h
  simp [h, he, hr]

/-- The cleanup step when the directory is already gone: silently ignored. -/
theorem cleanup_cons_ignored {mounts : Mounts} {mp q : Path} {fs : FS}
    {sv : String × List (String × String)} (hirName : Path) (rest : Params)
    (h : lookupMount mounts sv.1 = some mp) (he : mp.isEmpty = false)
    (hr : removeDir fs (mp ++ hirName) = .error (.notExist q)) :
    cleanupHierarchy mounts hirName fs (sv :: rest) =
      cleanupHierarchy mounts hirName fs rest := by
  obtain ⟨s, vs⟩ := sv
  conv_lhs => rw [cleanupHierarchy.eq_def]
  simp only at h
  simp [h, he, hr]

/-- The cleanup step when the removal fails for any other reason: the
failure is reported on the error stream and the loop continues. -/
theorem cleanup_cons_logged {mounts : Mounts} {mp q : Path} {fs : FS}
    {sv : String × List (String × String)} (hirName : Path) (rest : Params)
    (h : lookupMount mounts sv.1 = some mp) (he : mp.isEmpty = false)
    (hr : removeDir fs (mp ++ hirName) = .error (.notEmpty q)) :
    cleanupHierarchy mounts hirName fs (sv :: rest) =
      ((cleanupHierarchy mounts hirName fs rest).1,
        (mp ++ hirName) :: (cleanupHierarchy mounts hirName fs rest).2) := by
  obtain ⟨s, vs⟩ := sv
  conv_lhs => rw [cleanupHierarchy.eq_def]
  simp only at h
  simp [h, he, hr]

/-- The hierarchy directory paths cleanup targets: one per subsystem of the
parameter set with a non-empty mount path. -/
def tgts (mounts : Mounts) (hirName : Path) (ps : Params) : List Path :=
  ps.filterMap (fun sv =>
    match lookupMount mounts sv.1 with
    | some mp => if mp.isEmpty then none else some (mp ++ hirName)
    | none => none)

theorem mem_tgts {mounts : Mounts} {hirName : Path} {s : String}
    {vs : List (String × String)} {mp : Path} {ps : Params}
    (hmem : (s, vs) ∈ ps) (h : lookupMount mounts s = some mp)
    (he : mp.isEmpty = false) : (mp ++ hirName) ∈ tgts mounts hirName ps := by
  unfold tgts
  rw [List.mem_filterMap]
  exact ⟨(s, vs), hmem, by simp [h, he]⟩

theorem tgts_cons_none {mounts : Mounts} {hirName : Path}
    {sv : String × List (String × String)} {rest : Params}
    (h : lookupMount mounts sv.1 = none) :
    tgts mounts hirName (sv :: rest) = tgts mounts hirName rest := by
  simp [tgts, List.filterMap_cons, h]

theorem tgts_cons_empty {mounts : Mounts} {hirName : Path} {mp : Path}
    {sv : String × List (String × String)} {rest : Params}
    (h : lookupMount mounts sv.1 = some mp) (he : mp.isEmpty = true) :
    tgts mounts hirName (sv :: rest) = tgts mounts hirName rest := by
  have he2 : mp = [] := by simpa using he
  subst he2
  simp [tgts, List.filterMap_cons, h]

theorem tgts_cons_mounted {mounts : Mounts} {hirName : Path} {mp : Path}
    {sv : String × List (String × String)} {rest : Params}
    (h : lookupMount mounts sv.1 = some mp) (he : mp.isEmpty = false) :
    tgts mounts hirName (sv :: rest) =
      (mp ++ hirName) :: tgts mounts hirName rest := by
  have he2 : mp ≠ [] := by simpa using he
  simp [tgts, List.filterMap_cons, h, he2]

/-- Cleanup only ever removes directory entries. -/
theorem cleanup_dirs_subset (mounts : Mounts) (hirName : Path) :
    ∀ (ps : Params) (fs : FS) (d : Path × Nat),
      d ∈ ((cleanupHierarchy mounts hirName fs ps).1).dirs → d ∈ fs.dirs := by
  intro ps
  induction ps with
  | nil => intro fs d hd; exact hd
  | cons sv rest ih =>
    intro fs d hd
    rcases hm : lookupMount mounts sv.1 with _ | mp
    · rw [cleanup_cons_none hirName rest fs hm] at hd
      exact ih fs d hd
    · cases hemp : mp.isEmpty with
      | true =>
        rw [cleanup_cons_empty hirName rest fs hm hemp] at hd
        exact ih fs d hd
      | false =>
        cases hex : dirExistsB fs (mp ++ hirName) with
        | false =>
          rw [cleanup_cons_ignored hirName rest hm hemp (removeDir_missing hex)] at hd
          exact ih fs d hd
        | true =>
          cases hbl : blockedB fs (mp ++ hirName) with
          | true =>
            rw [cleanup_cons_logged hirName rest hm hemp
              (removeDir_blocked hex hbl)] at hd
            exact ih fs d hd
          | false =>
            rw [cleanup_cons_ok hirName rest hm hemp (removeDir_ok hex hbl)] at hd
            have hd2 := ih _ d hd
            exact List.mem_of_mem_filter hd2

/-- Which directory entries survive cleanup, provided no two target paths
are nested: exactly the entries that are not a target, or whose removal is
blocked by a strict descendant directory. -/
theorem cleanup_dirs_char (mounts : Mounts) (hirName : Path) :
    ∀ (ps : Params) (fs : FS),
      (tgts mounts hirName ps).Pairwise
        (fun a b => a.isPrefixOf b = false ∧ b.isPrefixOf a = false) →
      ∀ d : Path × Nat,
        (d ∈ ((cleanupHierarchy mounts hirName fs ps).1).dirs ↔
          d ∈ fs.dirs ∧
            (d.1 ∉ tgts mounts hirName ps ∨ blockedB fs d.1 = true)) := by
  intro ps
  induction ps with
  | nil =>
    intro fs _ d
    simp [cleanupHierarchy, tgts]
  | cons sv rest ih =>
    intro fs hpf d
    rcases hm : lookupMount mounts sv.1 with _ | mp
    · rw [cleanup_cons_none hirName rest fs hm, tgts_cons_none hm]
      rw [tgts_cons_none hm] at hpf
      exact ih fs hpf d
    · cases hemp : mp.isEmpty with
      | true =>
        rw [cleanup_cons_empty hirName rest fs hm hemp, tgts_cons_empty hm hemp]
        rw [tgts_cons_empty hm hemp] at hpf
        exact ih fs hpf d
      | false =>
        rw [tgts_cons_mounted hm hemp] at hpf
        rw [tgts_cons_mounted hm hemp]
        have hpf1 := (List.pairwise_cons.mp hpf).1
        have hpfr := (List.pairwise_cons.mp hpf).2
        have htpnotin : (mp ++ hirName) ∉ tgts mounts hirName rest := by
          intro hin
          have hh := (hpf1 _ hin).1
          have htr : (mp ++ hirName).isPrefixOf (mp ++ hirName) = true :=
            List.isPrefixOf_iff_prefix.mpr (List.prefix_refl _)
          rw [htr] at hh
          cases hh
        cases hex : dirExistsB fs (mp ++ hirName) with
        | false =>
          rw [cleanup_cons_ignored hirName rest hm hemp (removeDir_missing hex)]
          rw [ih fs hpfr d]
          have hne : ∀ e ∈ fs.dirs, e.1 ≠ mp ++ hirName :=
            dirExistsB_false_iff.mp hex
          constructor
          · rintro ⟨hdfs, hrest⟩
            refine ⟨hdfs, ?_⟩
            rcases hrest with hnot | hbl
            · left
              intro hin
              rcases List.mem_cons.mp hin with hin | hin
              · exact hne d hdfs hin
              · exact hnot hin
            · right; exact hbl
          · rintro ⟨hdfs, hrest⟩
            refine ⟨hdfs, ?_⟩
            rcases hrest with hnot | hbl
            · left; intro hin; exact hnot (List.mem_cons_of_mem _ hin)
            · right; exact hbl
        | true =>
          cases hbl : blockedB fs (mp ++ hirName) with
          | true =>
            rw [cleanup_cons_logged hirName rest hm hemp (removeDir_blocked hex hbl)]
            show d ∈ ((cleanupHierarchy mounts hirName fs rest).1).dirs ↔ _
            rw [ih fs hpfr d]
            by_cases hd : d.1 = mp ++ hirName
            · constructor
              · rintro ⟨hdfs, _⟩
                exact ⟨hdfs, Or.inr (by rw [hd]; exact hbl)⟩
              · rintro ⟨hdfs, _⟩
                exact ⟨hdfs, Or.inl (by rw [hd]; exact htpnotin)⟩
            · constructor
              · rintro ⟨hdfs, hrest⟩
                refine ⟨hdfs, ?_⟩
                rcases hrest with hnot | hbl2
                · left
                  intro hin
                  rcases List.mem_cons.mp hin with hin | hin
                  · exact hd hin
                  · exact hnot hin
                · right; exact hbl2
              · rintro ⟨hdfs, hrest⟩
                refine ⟨hdfs, ?_⟩
                rcases hrest with hnot | hbl2
                · left; intro hin; exact hnot (List.mem_cons_of_mem _ hin)
                · right; exact hbl2
          | false =>
            rw [cleanup_cons_ok hirName rest hm hemp (removeDir_ok hex hbl)]
            rw [ih _ hpfr d]
            have hmemf : ∀ e : Path × Nat,
                (e ∈ (fs.dirs.filter (fun x => decide (x.1 ≠ mp ++ hirName))) ↔
                  e ∈ fs.dirs ∧ e.1 ≠ mp ++ hirName) := by
              intro e
              simp [List.mem_filter]
            by_cases hd : d.1 = mp ++ hirName
            · constructor
              · rintro ⟨hdfs, _⟩
                exact absurd ((hmemf d).mp hdfs).2 (by rw [hd]; exact fun hq => hq rfl)
              · rintro ⟨hdfs, hrest⟩
                rcases hrest with hnot | hbl2
                · exact absurd (List.mem_cons_self _ _) (by rw [← hd] at *; exact hnot)
                · rw [hd] at hbl2
                  rw [hbl2] at hbl
                  cases hbl
            · constructor
              · rintro ⟨hdfs, hrest⟩
                refine ⟨((hmemf d).mp hdfs).1, ?_⟩
                rcases hrest with hnot | hbl2
                · left
                  intro hin
                  rcases List.mem_cons.mp hin with hin | hin
                  · exact hd hin
                  · exact hnot hin
                · right
                  rcases blockedB_true_iff.mp hbl2 with ⟨e, he1, he2, he3⟩
                  exact blockedB_true_iff.mpr ⟨e, ((hmemf e).mp he1).1, he2, he3⟩
              · rintro ⟨hdfs, hrest⟩
                refine ⟨(hmemf d).mpr ⟨hdfs, hd⟩, ?_⟩
                by_cases hdin : d.1 ∈ tgts mounts hirName rest
                · right
                  rcases hrest with hnot | hbl2
                  · exact absurd (List.mem_cons_of_mem _ hdin) hnot
                  · rcases blockedB_true_iff.mp hbl2 with ⟨e, he1, he2, he3⟩
                    have hetp : e.1 ≠ mp ++ hirName := by
                      intro heq
                      have hh := (hpf1 _ hdin).2
                      have htr : (d.1).isPrefixOf (mp ++ hirName) = true :=
                        List.isPrefixOf_iff_prefix.mpr (heq ▸ he2)
                      rw [htr] at hh
                      cases hh
                    exact blockedB_true_iff.mpr ⟨e, (hmemf e).mpr ⟨he1, hetp⟩, he2, he3⟩
                · left; exact hdin

/-- Every path reported on the error stream by cleanup is a target whose
directory existed and whose removal was blocked (a non-notExist failure). -/
theorem cleanup_log_sound (mounts : Mounts) (hirName : Path) :
    ∀ (ps : Params) (fs : FS) (p : Path),
      p ∈ (cleanupHierarchy mounts hirName fs ps).2 →
      p ∈ tgts mounts hirName ps ∧ dirExistsB fs p = true ∧
        blockedB fs p = true := by
  intro ps
  induction ps with
  | nil => intro fs p hp; cases hp
  | cons sv rest ih =>
    intro fs p hp
    rcases hm : lookupMount mounts sv.1 with _ | mp
    · rw [cleanup_cons_none hirName rest fs hm] at hp
      rcases ih fs p hp with ⟨h1, h2, h3⟩
      exact ⟨by rw [tgts_cons_none hm]; exact h1, h2, h3⟩
    · cases hemp : mp.isEmpty with
      | true =>
        rw [cleanup_cons_empty hirName rest fs hm hemp] at hp
        rcases ih fs p hp with ⟨h1, h2, h3⟩
        exact ⟨by rw [tgts_cons_empty hm hemp]; exact h1, h2, h3⟩
      | false =>
        cases hex : dirExistsB fs (mp ++ hirName) with
        | false =>
          rw [cleanup_cons_ignored hirName rest hm hemp (removeDir_missing hex)] at hp
          rcases ih fs p hp with ⟨h1, h2, h3⟩
          have h1b : p ∈ tgts mounts hirName (sv :: rest) := by
            rw [tgts_cons_mounted hm hemp]
            exact List.mem_cons_of_mem _ h1
          exact ⟨h1b, h2, h3⟩
        | true =>
          cases hbl : blockedB fs (mp ++ hirName) with
          | true =>
            rw [cleanup_cons_logged hirName rest hm hemp
              (removeDir_blocked hex hbl)] at hp
            rcases List.mem_cons.mp hp with hp | hp
            · subst hp
              have h1b : mp ++ hirName ∈ tgts mounts hirName (sv :: rest) := by
                rw [tgts_cons_mounted hm hemp]
                exact List.mem_cons_self _ _
              exact ⟨h1b, hex, hbl⟩
            · rcases ih fs p hp with ⟨h1, h2, h3⟩
              have h1b : p ∈ tgts mounts hirName (sv :: rest) := by
                rw [tgts_cons_mounted hm hemp]
                exact List.mem_cons_of_mem _ h1
              exact ⟨h1b, h2, h3⟩
          | false =>
            rw [cleanup_cons_ok hirName rest hm hemp (removeDir_ok hex hbl)] at hp
            rcases ih _ p hp with ⟨h1, h2, h3⟩
            have h1b : p ∈ tgts mounts hirName (sv :: rest) := by
              rw [tgts_cons_mounted hm hemp]
              exact List.mem_cons_of_mem _ h1
            refine ⟨h1b, ?_, ?_⟩
            · rcases dirExistsB_true_iff.mp h2 with ⟨d, hd1, hd2⟩
              exact dirExistsB_true_iff.mpr ⟨d, List.mem_of_mem_filter hd1, hd2⟩
            · rcases blockedB_true_iff.mp h3 with ⟨e, he1, he2, he3⟩
              exact blockedB_true_iff.mpr ⟨e, List.mem_of_mem_filter he1, he2, he3⟩

/-- When every still-present target is blocked, cleanup changes nothing. -/
theorem cleanup_fix (mounts : Mounts) (hirName : Path) :
    ∀ (ps : Params) (fs : FS),
      (∀ p ∈ tgts mounts hirName ps,
        dirExistsB fs p = true → blockedB fs p = true) →
      (cleanupHierarchy mounts hirName fs ps).1 = fs := by
  intro ps
  induction ps with
  | nil => intro fs _; rfl
  | cons sv rest ih =>
    intro fs hall
    rcases hm : lookupMount mounts sv.1 with _ | mp
    · rw [cleanup_cons_none hirName rest fs hm]
      exact ih fs (fun p hp => hall p (by rw [tgts_cons_none hm]; exact hp))
    · cases hemp : mp.isEmpty with
      | true =>
        rw [cleanup_cons_empty hirName rest fs hm hemp]
        exact ih fs (fun p hp => hall p (by rw [tgts_cons_empty hm hemp]; exact hp))
      | false =>
        have hrest : ∀ p ∈ tgts mounts hirName rest,
            dirExistsB fs p = true → blockedB fs p = true := by
          intro p hp
          refine hall p ?_
          rw [tgts_cons_mounted hm hemp]
          exact List.mem_cons_of_mem _ hp
        cases hex : dirExistsB fs (mp ++ hirName) with
        | false =>
          rw [cleanup_cons_ignored hirName rest hm hemp (removeDir_missing hex)]
          exact ih fs hrest
        | true =>
          have hmem0 : mp ++ hirName ∈ tgts mounts hirName (sv :: rest) := by
            rw [tgts_cons_mounted hm hemp]
            exact List.mem_cons_self _ _
          have hbl : blockedB fs (mp ++ hirName) = true := hall _ hmem0 hex
          rw [cleanup_cons_logged hirName rest hm hemp (removeDir_blocked hex hbl)]
          exact ih fs hrest

/-- C7: destroy never raises an error to its caller (cleanupHierarchy is a
total function into a state and an error-stream log); provided no two
target directories are nested: it is idempotent on the filesystem; a
missing directory is silently ignored — nothing is reported for it and it
stays absent; a target directory whose removal is unobstructed is removed
even when other subsystems fail, since the loop continues past failures;
and everything reported on the error stream is a target whose directory
existed but whose removal failed with a non-notExist error. -/
theorem c7_cleanup_best_effort (mounts : Mounts) (hirName : Path) (ps : Params)
    (fs : FS)
    (hpf : (tgts mounts hirName ps).Pairwise
      (fun a b => a.isPrefixOf b = false ∧ b.isPrefixOf a = false)) :
    ((cleanupHierarchy mounts hirName
        (cleanupHierarchy mounts hirName fs ps).1 ps).1 =
      (cleanupHierarchy mounts hirName fs ps).1) ∧
    (∀ sv ∈ ps, ∀ mp, lookupMount mounts sv.1 = some mp → mp.isEmpty = false →
      dirExistsB fs (mp ++ hirName) = false →
      ((mp ++ hirName) ∉ (cleanupHierarchy mounts hirName fs ps).2 ∧
        dirExistsB (cleanupHierarchy mounts hirName fs ps).1 (mp ++ hirName) =
          false)) ∧
    (∀ sv ∈ ps, ∀ mp, lookupMount mounts sv.1 = some mp → mp.isEmpty = false →
      blockedB fs (mp ++ hirName) = false →
      dirExistsB (cleanupHierarchy mounts hirName fs ps).1 (mp ++ hirName) =
        false) ∧
    (∀ p ∈ (cleanupHierarchy mounts hirName fs ps).2,
      p ∈ tgts mounts hirName ps ∧ dirExistsB fs p = true ∧
        blockedB fs p = true) := by
  refine ⟨?_, ?_, ?_, fun p hp => cleanup_log_sound mounts hirName ps fs p hp⟩
  · apply cleanup_fix
    intro p hp hex
    rcases dirExistsB_true_iff.mp hex with ⟨d, hd1, hd2⟩
    subst hd2
    rcases (cleanup_dirs_char mounts hirName ps fs hpf d).mp hd1 with ⟨hdfs, hrest⟩
    rcases hrest with hnot | hbl
    · exact absurd hp hnot
    · rcases blockedB_true_iff.mp hbl with ⟨e, he1, he2, he3⟩
      have hent : e.1 ∉ tgts mounts hirName ps := by
        intro hin
        have hR := List.Pairwise.forall
          (fun a b hab => ⟨hab.2, hab.1⟩) hpf hp hin he3
        have htr : (d.1).isPrefixOf e.1 = true :=
          List.isPrefixOf_iff_prefix.mpr he2
        rw [htr] at hR
        cases hR.1
      have hein : e ∈ ((cleanupHierarchy mounts hirName fs ps).1).dirs :=
        (cleanup_dirs_char mounts hirName ps fs hpf e).mpr ⟨he1, Or.inl hent⟩
      exact blockedB_true_iff.mpr ⟨e, hein, he2, he3⟩
  · intro sv hsv mp hm hemp hex
    constructor
    · intro hin
      have hh := (cleanup_log_sound mounts hirName ps fs _ hin).2.1
      rw [hex] at hh
      cases hh
    · cases hfin : dirExistsB ((cleanupHierarchy mounts hirName fs ps).1)
          (mp ++ hirName) with
      | false => rfl
      | true =>
        rcases dirExistsB_true_iff.mp hfin with ⟨d, hd1, hd2⟩
        have hd3 := cleanup_dirs_subset mounts hirName ps fs d hd1
        exact absurd hd2 (dirExistsB_false_iff.mp hex d hd3)
  · intro sv hsv mp hm hemp hbl
    rw [dirExistsB_false_iff]
    intro d hd1 hd2
    rcases (cleanup_dirs_char mounts hirName ps fs hpf d).mp hd1 with ⟨hdfs, hrest⟩
    rcases hrest with hnot | hbl2
    · refine hnot ?_
      rw [hd2]
      exact @mem_tgts mounts hirName sv.1 sv.2 mp ps hsv hm hemp
    · rw [hd2] at hbl2
      rw [hbl2] at hbl
      cases hbl

/-- C7 witness: a concrete cleanup over one mounted subsystem whose
directory exists and is removable. -/
theorem c7_cleanup_best_effort_witness :
    (tgts [("cpu", ["cg", "cpu"])] ["h"] [("cpu", [])]).Pairwise
      (fun a b => a.isPrefixOf b = false ∧ b.isPrefixOf a = false) ∧
    (cleanupHierarchy [("cpu", ["cg", "cpu"])] ["h"]
        (cleanupHierarchy [("cpu", ["cg", "cpu"])] ["h"]
          ⟨[(["cg", "cpu", "h"], 488), (["cg", "cpu"], 493)], []⟩ [("cpu", [])]).1
        [("cpu", [])]).1 =
      (cleanupHierarchy [("cpu", ["cg", "cpu"])] ["h"]
        ⟨[(["cg", "cpu", "h"], 488), (["cg", "cpu"], 493)], []⟩ [("cpu", [])]).1 :=
  ⟨by decide,
   (c7_cleanup_best_effort [("cpu", ["cg", "cpu"])] ["h"] [("cpu", [])]
     ⟨[(["cg", "cpu", "h"], 488), (["cg", "cpu"], 493)], []⟩ (by decide)).1⟩

/-! ## C2: full rollback when a subsystem is unmounted -/

theorem dropLast_ne_self {α : Type} {l : List α} (h : l ≠ []) : l.dropLast ≠ l := by
  intro he
  have hlen := congrArg List.length he
  rw [List.length_dropLast] at hlen
  have hpos : 0 < l.length := List.length_pos.mpr h
  omega

theorem isMounted_none {mounts : Mounts} {s : String}
    (hm : lookupMount mounts s = none) : isMounted mounts s = false := by
  simp [isMounted, hm]

theorem isMounted_empty {mounts : Mounts} {s : String} {mp : Path}
    (hm : lookupMount mounts s = some mp) (he : mp.isEmpty = true) :
    isMounted mounts s = false := by
  simp [isMounted, hm, he]

theorem isMounted_some {mounts : Mounts} {s : String} {mp : Path}
    (hm : lookupMount mounts s = some mp) (he : mp.isEmpty = false) :
    isMounted mounts s = true := by
  simp [isMounted, hm, he]

theorem tgts_mem_inv {mounts : Mounts} {hirName : Path} {ps : Params} {p : Path}
    (hp : p ∈ tgts mounts hirName ps) :
    ∃ sv ∈ ps, ∃ mp, lookupMount mounts sv.1 = some mp ∧ mp.isEmpty = false ∧
      p = mp ++ hirName := by
  unfold tgts at hp
  rw [List.mem_filterMap] at hp
  obtain ⟨sv, hsv, hf⟩ := hp
  rcases hm : lookupMount mounts sv.1 with _ | mp
  · rw [hm] at hf
    cases hf
  · rw [hm] at hf
    have hf2 : (if mp.isEmpty = true then none else some (mp ++ hirName)) = some p := hf
    cases hemp : mp.isEmpty with
    | true =>
      rw [if_pos (by rw [hemp])] at hf2
      cases hf2
    | false =>
      rw [if_neg (by rw [hemp]; exact Bool.false_ne_true)] at hf2
      injection hf2 with hf2
      exact ⟨sv, hsv, mp, hm, hemp, hf2.symm⟩

theorem setupSubsys_err_none {mounts : Mounts} {s : String} (hirName : Path)
    (fs : FS) (vs : List (String × String)) (hm : lookupMount mounts s = none) :
    setupSubsys mounts hirName fs s vs = (some (.subsysNotMounted s), fs) := by
  unfold setupSubsys
  simp [hm]

theorem setupSubsys_err_empty {mounts : Mounts} {s : String} {mp : Path}
    (hirName : Path) (fs : FS) (vs : List (String × String))
    (hm : lookupMount mounts s = some mp) (he : mp.isEmpty = true) :
    setupSubsys mounts hirName fs s vs = (some (.subsysNotMounted s), fs) := by
  unfold setupSubsys
  simp [hm, he]

/-- The mandatory-parameter loop succeeds when the target directory exists
and every parent value is readable; it never touches the directory table
and only writes files directly inside the target directory. -/
theorem writeMandatory_ok (hirPath : Path) (s : String) (hne : hirPath ≠ []) :
    ∀ (mands : List String) (fs : FS),
      dirExistsB fs hirPath = true →
      (∀ m ∈ mands, ∃ c,
        readFileR fs (hirPath.dropLast ++ [s ++ "." ++ m]) = .ok c) →
      ∃ fs2, writeMandatory hirPath s fs mands = (none, fs2) ∧
        fs2.dirs = fs.dirs ∧
        (∀ q : Path, q.dropLast ≠ hirPath → readFileR fs2 q = readFileR fs q) := by
  intro mands
  induction mands with
  | nil =>
    intro fs hdir hreads
    exact ⟨fs, rfl, rfl, fun q _ => rfl⟩
  | cons m rest ih =>
    intro fs hdir hreads
    obtain ⟨c, hc⟩ := hreads m (by simp)
    have hwdir : dirExistsB fs (hirPath ++ [s ++ "." ++ m]).dropLast = true := by
      rw [dropLast_snoc]
      exact hdir
    obtain ⟨fsA, hwA⟩ : ∃ fsA,
        writeFileR fs (hirPath ++ [s ++ "." ++ m]) c = .ok fsA :=
      ⟨_, writeFileR_ok hwdir⟩
    have hdirA : dirExistsB fsA hirPath = true := by
      unfold dirExistsB
      rw [writeFileR_dirs hwA]
      exact hdir
    have hpres1 : ∀ q : Path, q.dropLast ≠ hirPath →
        readFileR fsA q = readFileR fs q := by
      intro q hq
      refine readFileR_writeFileR_ne hwA ?_
      intro heq
      apply hq
      rw [heq, dropLast_snoc]
    obtain ⟨fs2, heq2, hdirs2, hpres2⟩ := ih fsA hdirA
      (by
        intro m2 hm2
        obtain ⟨c2, hc2⟩ := hreads m2 (by simp [hm2])
        refine ⟨c2, ?_⟩
        rw [hpres1 _ ?_]
        · exact hc2
        · rw [dropLast_snoc]
          exact dropLast_ne_self hne)
    refine ⟨fs2, ?_, ?_, ?_⟩
    · rw [writeMandatory_cons_ok rest hc hwA]
      exact heq2
    · rw [hdirs2, writeFileR_dirs hwA]
    · intro q hq
      rw [hpres2 q hq, hpres1 q hq]

/-- The caller-parameter loop succeeds when the target directory exists; it
never touches the directory table and only writes inside the target. -/
theorem writeParamValues_ok (hirPath : Path) (s : String) :
    ∀ (vs : List (String × String)) (fs : FS),
      dirExistsB fs hirPath = true →
      ∃ fs2, writeParamValues hirPath s fs vs = (none, fs2) ∧
        fs2.dirs = fs.dirs ∧
        (∀ q : Path, q.dropLast ≠ hirPath → readFileR fs2 q = readFileR fs q) := by
  intro vs
  induction vs with
  | nil =>
    intro fs hdir
    exact ⟨fs, rfl, rfl, fun q _ => rfl⟩
  | cons pv rest ih =>
    intro fs hdir
    obtain ⟨pname, pval⟩ := pv
    have hwdir : dirExistsB fs (hirPath ++ [s ++ "." ++ pname]).dropLast = true := by
      rw [dropLast_snoc]
      exact hdir
    obtain ⟨fsA, hwA⟩ : ∃ fsA,
        writeFileR fs (hirPath ++ [s ++ "." ++ pname]) pval = .ok fsA :=
      ⟨_, writeFileR_ok hwdir⟩
    have hdirA : dirExistsB fsA hirPath = true := by
      unfold dirExistsB
      rw [writeFileR_dirs hwA]
      exact hdir
    obtain ⟨fs2, heq2, hdirs2, hpres2⟩ := ih fsA hdirA
    refine ⟨fs2, ?_, ?_, ?_⟩
    · conv_lhs => rw [writeParamValues.eq_def]
      simp only [hwA]
      exact heq2
    · rw [hdirs2, writeFileR_dirs hwA]
    · intro q hq
      rw [hpres2 q hq]
      refine readFileR_writeFileR_ne hwA ?_
      intro heq
      apply hq
      rw [heq, dropLast_snoc]

/-- A mounted subsystem whose target directory is fresh and whose mandatory
parent values are readable is processed successfully: the loop body creates
exactly the 0o750 directory and writes only inside it. -/
theorem setupSubsys_ok {mounts : Mounts} {hirName : Path} {fs : FS}
    {s : String} {mp : Path} (vs : List (String × String))
    (hm : lookupMount mounts s = some mp) (hemp : mp.isEmpty = false)
    (hfresh : dirExistsB fs (mp ++ hirName) = false)
    (hreads : ∀ mands, lookupMand s = some mands → ∀ m ∈ mands,
      ∃ c, readFileR fs ((mp ++ hirName).dropLast ++ [s ++ "." ++ m]) = .ok c) :
    ∃ fs2, setupSubsys mounts hirName fs s vs = (none, fs2) ∧
      fs2.dirs = ((mp ++ hirName), 0o750) :: fs.dirs ∧
      (∀ q : Path, q.dropLast ≠ mp ++ hirName → readFileR fs2 q = readFileR fs q) := by
  have hmpne : mp ≠ [] := by simpa using hemp
  have hne : mp ++ hirName ≠ [] := by
    intro h
    exact hmpne (List.append_eq_nil.mp h).1
  have hkfiles :
      ∀ q, readFileR { fs with dirs := ((mp ++ hirName), 0o750) :: fs.dirs } q =
        readFileR fs q := fun _ => rfl
  have hdtgt : dirExistsB { fs with dirs := ((mp ++ hirName), 0o750) :: fs.dirs }
      (mp ++ hirName) = true := by
    simp [dirExistsB]
  rw [setupSubsys_eq vs hm hemp hfresh]
  rcases hlm : lookupMand s with _ | mands
  · obtain ⟨fs2, heq2, hdirs2, hpres2⟩ := writeParamValues_ok (mp ++ hirName) s vs
      { fs with dirs := ((mp ++ hirName), 0o750) :: fs.dirs } hdtgt
    refine ⟨fs2, ?_, by rw [hdirs2], ?_⟩
    · simp only [hlm, heq2]
    · intro q hq
      rw [hpres2 q hq, hkfiles q]
  · obtain ⟨fsm, heqm, hdirsm, hpresm⟩ := writeMandatory_ok (mp ++ hirName) s hne
      mands { fs with dirs := ((mp ++ hirName), 0o750) :: fs.dirs } hdtgt
      (by
        intro m hmem
        obtain ⟨c, hc⟩ := hreads mands hlm m hmem
        exact ⟨c, by rw [hkfiles]; exact hc⟩)
    have hdtgtm : dirExistsB fsm (mp ++ hirName) = true := by
      unfold dirExistsB
      rw [hdirsm]
      exact hdtgt
    obtain ⟨fs2, heq2, hdirs2, hpres2⟩ :=
      writeParamValues_ok (mp ++ hirName) s vs fsm hdtgtm
    refine ⟨fs2, ?_, ?_, ?_⟩
    · simp only [hlm, heqm, heq2]
    · rw [hdirs2, hdirsm]
    · intro q hq
      rw [hpres2 q hq, hpresm q hq, hkfiles q]

theorem setupLoop_cons_err {mounts : Mounts} {hirName : Path} {fs fs1 : FS}
    {sv : String × List (String × String)} {rest : Params} {e : Err}
    (hs : setupSubsys mounts hirName fs sv.1 sv.2 = (some e, fs1)) :
    setupLoop mounts hirName fs (sv :: rest) = (some e, fs1) := by
  obtain ⟨s, vs⟩ := sv
  conv_lhs => rw [setupLoop.eq_def]
  simp only at hs
  simp [hs]

theorem setupLoop_cons_ok {mounts : Mounts} {hirName : Path} {fs fsh : FS}
    {sv : String × List (String × String)} {rest : Params}
    (hs : setupSubsys mounts hirName fs sv.1 sv.2 = (none, fsh)) :
    setupLoop mounts hirName fs (sv :: rest) = setupLoop mounts hirName fsh rest := by
  obtain ⟨s, vs⟩ := sv
  conv_lhs => rw [setupLoop.eq_def]
  simp only at hs
  simp [hs]

theorem setupHierarchy_err {mounts : Mounts} {hirName : Path} {ps : Params}
    {fs fs1 : FS} {e : Err}
    (h : setupLoop mounts hirName fs ps = (some e, fs1)) :
    setupHierarchy mounts hirName ps fs =
      (some e, (cleanupHierarchy mounts hirName fs1 ps).1) := by
  unfold setupHierarchy
  simp [h]

/-- On a parameter set containing an unmounted subsystem — under separation
hypotheses: targets are fresh (no directory at or below a target), pairwise
distinct, never the parent of another target, and the mandatory parent
values are readable — the setup loop stops with the subsystem-not-mounted
error, having added at most target directories to the filesystem. -/
theorem setupLoop_bad_spec (mounts : Mounts) (hirName : Path) (fs0 : FS) :
    ∀ (ps : Params) (fs : FS) (done : List Path),
      (∀ d ∈ fs.dirs, d ∈ fs0.dirs ∨ d.1 ∈ done) →
      (∀ q : Path, q.dropLast ∉ done → readFileR fs q = readFileR fs0 q) →
      (∀ q ∈ tgts mounts hirName ps, ∀ d ∈ fs0.dirs,
        q.isPrefixOf d.1 = false) →
      (∀ p ∈ done, ∀ q ∈ tgts mounts hirName ps, p ≠ q) →
      (∀ p ∈ done, ∀ q ∈ tgts mounts hirName ps, p ≠ q.dropLast) →
      ((tgts mounts hirName ps).Pairwise (fun a b => a ≠ b)) →
      (∀ p ∈ tgts mounts hirName ps, ∀ q ∈ tgts mounts hirName ps,
        p ≠ q.dropLast) →
      (∀ sv ∈ ps, ∀ mp, lookupMount mounts sv.1 = some mp →
        mp.isEmpty = false → ∀ mands, lookupMand sv.1 = some mands →
        ∀ m ∈ mands, ∃ c,
          readFileR fs0 ((mp ++ hirName).dropLast ++ [sv.1 ++ "." ++ m]) = .ok c) →
      (∃ sv ∈ ps, isMounted mounts sv.1 = false) →
      ∃ s fs1, setupLoop mounts hirName fs ps =
          (some (.subsysNotMounted s), fs1) ∧
        isMounted mounts s = false ∧ (∃ vs, (s, vs) ∈ ps) ∧
        (∀ d ∈ fs1.dirs,
          d ∈ fs0.dirs ∨ d.1 ∈ done ∨ d.1 ∈ tgts mounts hirName ps) := by
  intro ps
  induction ps with
  | nil =>
    intro fs done _ _ _ _ _ _ _ _ hbad
    obtain ⟨sv, hsv, _⟩ := hbad
    cases hsv
  | cons sv rest ih =>
    intro fs done hinva hinvc hfresh hdone_ne hdone_par htpw hsafe hparent hbad
    rcases hm : lookupMount mounts sv.1 with _ | mp
    · refine ⟨sv.1, fs, ?_, isMounted_none hm, ⟨sv.2, List.mem_cons_self _ _⟩, ?_⟩
      · exact setupLoop_cons_err (setupSubsys_err_none hirName fs sv.2 hm)
      · intro d hd
        rcases hinva d hd with h0 | hdn
        · exact Or.inl h0
        · exact Or.inr (Or.inl hdn)
    · cases hemp : mp.isEmpty with
      | true =>
        refine ⟨sv.1, fs, ?_, isMounted_empty hm hemp,
          ⟨sv.2, List.mem_cons_self _ _⟩, ?_⟩
        · exact setupLoop_cons_err (setupSubsys_err_empty hirName fs sv.2 hm hemp)
        · intro d hd
          rcases hinva d hd with h0 | hdn
          · exact Or.inl h0
          · exact Or.inr (Or.inl hdn)
      | false =>
        have htg : tgts mounts hirName (sv :: rest) =
            (mp ++ hirName) :: tgts mounts hirName rest := tgts_cons_mounted hm hemp
        have htgmem : (mp ++ hirName) ∈ tgts mounts hirName (sv :: rest) := by
          rw [htg]
          exact List.mem_cons_self _ _
        have hfreshcur : dirExistsB fs (mp ++ hirName) = false := by
          rw [dirExistsB_false_iff]
          intro d hd heq
          rcases hinva d hd with h0 | hdn
          · have hpf := hfresh _ htgmem d h0
            rw [heq] at hpf
            have htr : (mp ++ hirName).isPrefixOf (mp ++ hirName) = true :=
              List.isPrefixOf_iff_prefix.mpr (List.prefix_refl _)
            rw [htr] at hpf
            cases hpf
          · exact hdone_ne _ hdn _ htgmem heq
        have hreadscur : ∀ mands, lookupMand sv.1 = some mands → ∀ m ∈ mands,
            ∃ c, readFileR fs
              ((mp ++ hirName).dropLast ++ [sv.1 ++ "." ++ m]) = .ok c := by
          intro mands hlm m hmem
          obtain ⟨c, hc⟩ :=
            hparent sv (List.mem_cons_self _ _) mp hm hemp mands hlm m hmem
          refine ⟨c, ?_⟩
          rw [hinvc _ ?_]
          · exact hc
          · rw [dropLast_snoc]
            intro hin
            exact hdone_par _ hin _ htgmem rfl
        obtain ⟨fsh, hseq, hsdirs, hspres⟩ :=
          setupSubsys_ok sv.2 hm hemp hfreshcur hreadscur
        have hinva2 : ∀ d ∈ fsh.dirs,
            d ∈ fs0.dirs ∨ d.1 ∈ (mp ++ hirName) :: done := by
          intro d hd
          rw [hsdirs] at hd
          rcases List.mem_cons.mp hd with he | hd2
          · right
            rw [he]
            exact List.mem_cons_self _ _
          · rcases hinva d hd2 with h0 | hdn
            · exact Or.inl h0
            · exact Or.inr (List.mem_cons_of_mem _ hdn)
        have hinvc2 : ∀ q : Path, q.dropLast ∉ (mp ++ hirName) :: done →
            readFileR fsh q = readFileR fs0 q := by
          intro q hq
          have h1 : q.dropLast ≠ mp ++ hirName := by
            intro he
            exact hq (by rw [he]; exact List.mem_cons_self _ _)
          have h2 : q.dropLast ∉ done :=
            fun hin => hq (List.mem_cons_of_mem _ hin)
          rw [hspres q h1, hinvc q h2]
        have hsub : ∀ q ∈ tgts mounts hirName rest,
            q ∈ tgts mounts hirName (sv :: rest) := by
          intro q hq
          rw [htg]
          exact List.mem_cons_of_mem _ hq
        have hfresh2 : ∀ q ∈ tgts mounts hirName rest, ∀ d ∈ fs0.dirs,
            q.isPrefixOf d.1 = false :=
          fun q hq d hd => hfresh q (hsub q hq) d hd
        have hdone_ne2 : ∀ p ∈ (mp ++ hirName) :: done,
            ∀ q ∈ tgts mounts hirName rest, p ≠ q := by
          intro p hp q hq
          rcases List.mem_cons.mp hp with he | hp2
          · rw [he]
            rw [htg] at htpw
            exact (List.pairwise_cons.mp htpw).1 q hq
          · exact hdone_ne p hp2 q (hsub q hq)
        have hdone_par2 : ∀ p ∈ (mp ++ hirName) :: done,
            ∀ q ∈ tgts mounts hirName rest, p ≠ q.dropLast := by
          intro p hp q hq
          rcases List.mem_cons.mp hp with he | hp2
          · rw [he]
            exact hsafe _ htgmem q (hsub q hq)
          · exact hdone_par p hp2 q (hsub q hq)
        have htpw2 : (tgts mounts hirName rest).Pairwise (fun a b => a ≠ b) := by
          rw [htg] at htpw
          exact (List.pairwise_cons.mp htpw).2
        have hsafe2 : ∀ p ∈ tgts mounts hirName rest,
            ∀ q ∈ tgts mounts hirName rest, p ≠ q.dropLast :=
          fun p hp q hq => hsafe p (hsub p hp) q (hsub q hq)
        have hparent2 : ∀ sv2 ∈ rest, ∀ mp2, lookupMount mounts sv2.1 = some mp2 →
            mp2.isEmpty = false → ∀ mands, lookupMand sv2.1 = some mands →
            ∀ m ∈ mands, ∃ c,
              readFileR fs0 ((mp2 ++ hirName).dropLast ++ [sv2.1 ++ "." ++ m]) =
                .ok c :=
          fun sv2 hsv2 => hparent sv2 (List.mem_cons_of_mem _ hsv2)
        have hbad2 : ∃ sv2 ∈ rest, isMounted mounts sv2.1 = false := by
          obtain ⟨sv0, hsv0, hbad0⟩ := hbad
          rcases List.mem_cons.mp hsv0 with he | h2
          · rw [he] at hbad0
            rw [isMounted_some hm hemp] at hbad0
            cases hbad0
          · exact ⟨sv0, h2, hbad0⟩
        obtain ⟨s0, fs1, hl, hm0, hmem0, hdirs1⟩ :=
          ih fsh ((mp ++ hirName) :: done) hinva2 hinvc2 hfresh2 hdone_ne2
            hdone_par2 htpw2 hsafe2 hparent2 hbad2
        refine ⟨s0, fs1, ?_, hm0, ?_, ?_⟩
        · rw [setupLoop_cons_ok hseq]
          exact hl
        · obtain ⟨vs0, hv⟩ := hmem0
          exact ⟨vs0, List.mem_cons_of_mem _ hv⟩
        · intro d hd
          rcases hdirs1 d hd with h0 | hd1 | hd2
          · exact Or.inl h0
          · rcases List.mem_cons.mp hd1 with he | hdn
            · right; right
              rw [htg, he]
              exact List.mem_cons_self _ _
            · exact Or.inr (Or.inl hdn)
          · right; right
            rw [htg]
            exact List.mem_cons_of_mem _ hd2

/-- C2: for every ParameterSet containing a subsystem whose mount path is
absent or empty (and whose targets are fresh, pairwise separated and not
parents of one another, with the mandatory parent values readable — the
conditions under which nothing else can fail first), create fails with the
subsystem-not-mounted error and, after the deferred rollback, no hierarchy
directory remains under any referenced mount point, including the
directories of mounted subsystems processed before the failing one. -/
theorem c2_unmounted_rollback (mounts : Mounts) (hirName : Path) (ps : Params)
    (fs : FS)
    (hpf : (tgts mounts hirName ps).Pairwise
      (fun a b => a.isPrefixOf b = false ∧ b.isPrefixOf a = false))
    (hfresh : ∀ q ∈ tgts mounts hirName ps, ∀ d ∈ fs.dirs,
      q.isPrefixOf d.1 = false)
    (hsafe : ∀ p ∈ tgts mounts hirName ps, ∀ q ∈ tgts mounts hirName ps,
      p ≠ q.dropLast)
    (hparent : ∀ sv ∈ ps, ∀ mp, lookupMount mounts sv.1 = some mp →
      mp.isEmpty = false → ∀ mands, lookupMand sv.1 = some mands →
      ∀ m ∈ mands, ∃ c,
        readFileR fs ((mp ++ hirName).dropLast ++ [sv.1 ++ "." ++ m]) = .ok c)
    (hbad : ∃ sv ∈ ps, isMounted mounts sv.1 = false) :
    (∃ s, isMounted mounts s = false ∧ (∃ vs, (s, vs) ∈ ps) ∧
      (setupHierarchy mounts hirName ps fs).1 = some (.subsysNotMounted s)) ∧
    (∀ sv ∈ ps, ∀ mp, lookupMount mounts sv.1 = some mp → mp.isEmpty = false →
      dirExistsB (setupHierarchy mounts hirName ps fs).2 (mp ++ hirName) =
        false) := by
  have htpw : (tgts mounts hirName ps).Pairwise (fun a b => a ≠ b) := by
    refine List.Pairwise.imp ?_ hpf
    intro a b hab heq
    rw [heq] at hab
    have htr : b.isPrefixOf b = true :=
      List.isPrefixOf_iff_prefix.mpr (List.prefix_refl _)
    rw [htr] at hab
    cases hab.1
  obtain ⟨s, fs1, hl, hbad1, hmem1, hdirs1⟩ :=
    setupLoop_bad_spec mounts hirName fs ps fs []
      (fun d hd => Or.inl hd) (fun _ _ => rfl) hfresh
      (fun p hp => absurd hp (List.not_mem_nil p))
      (fun p hp => absurd hp (List.not_mem_nil p))
      htpw hsafe hparent hbad
  rw [setupHierarchy_err hl]
  refine ⟨⟨s, hbad1, hmem1, rfl⟩, ?_⟩
  intro sv hsv mp hm hemp
  rw [dirExistsB_false_iff]
  intro d hd heq
  have hmemtg : (mp ++ hirName) ∈ tgts mounts hirName ps :=
    @mem_tgts mounts hirName sv.1 sv.2 mp ps hsv hm hemp
  rcases (cleanup_dirs_char mounts hirName ps fs1 hpf d).mp hd with ⟨hdfs1, hrest⟩
  rcases hrest with hnot | hbl
  · exact hnot (heq ▸ hmemtg)
  · rw [heq] at hbl
    rcases blockedB_true_iff.mp hbl with ⟨e, he1, he2, he3⟩
    rcases hdirs1 e he1 with h0 | hdn | htgm
    · have hf := hfresh _ hmemtg e h0
      have h4 := List.isPrefixOf_iff_prefix.mpr he2
      rw [h4] at hf
      cases hf
    · cases hdn
    · have hR := List.Pairwise.forall
        (fun a b hab => ⟨hab.2, hab.1⟩) hpf hmemtg htgm he3
      have h4 := List.isPrefixOf_iff_prefix.mpr he2
      rw [h4] at hR
      cases hR.1

/-- C2 witness: a set referencing mounted cpu and unmounted blkio; create
fails with the not-mounted error and the already-created cpu hierarchy
directory is rolled back. -/
theorem c2_unmounted_rollback_witness :
    (∃ s, isMounted [("cpu", ["cg", "cpu"])] s = false ∧
      (∃ vs, (s, vs) ∈ [("cpu", ([] : List (String × String))), ("blkio", [])]) ∧
      (setupHierarchy [("cpu", ["cg", "cpu"])] ["h"]
          [("cpu", []), ("blkio", [])] ⟨[(["cg", "cpu"], 493)], []⟩).1 =
        some (.subsysNotMounted s)) ∧
    (∀ sv ∈ [("cpu", ([] : List (String × String))), ("blkio", [])],
      ∀ mp, lookupMount [("cpu", ["cg", "cpu"])] sv.1 = some mp →
      mp.isEmpty = false →
      dirExistsB (setupHierarchy [("cpu", ["cg", "cpu"])] ["h"]
          [("cpu", []), ("blkio", [])] ⟨[(["cg", "cpu"], 493)], []⟩).2
        (mp ++ ["h"]) = false) :=
  c2_unmounted_rollback [("cpu", ["cg", "cpu"])] ["h"]
    [("cpu", []), ("blkio", [])] ⟨[(["cg", "cpu"], 493)], []⟩
    (by decide) (by decide) (by decide)
    (by
      intro sv hsv mp hm hemp mands hlm m hmem
      rcases List.mem_cons.mp hsv with he | h2
      · rw [he] at hlm
        have hlm2 : lookupMand "cpu" = some mands := hlm
        have hno : lookupMand "cpu" = none := by decide
        rw [hno] at hlm2
        cases hlm2
      · rcases List.mem_cons.mp h2 with he2 | h3
        · rw [he2] at hlm
          have hlm2 : lookupMand "blkio" = some mands := hlm
          have hno : lookupMand "blkio" = none := by decide
          rw [hno] at hlm2
          cases hlm2
        · cases h3)
    ⟨("blkio", []), by decide, by decide⟩

/-! ## C5: attach-mode pid collection -/

/-- A parent-child edge of the /proc snapshot: some all-digit directory
entry whose stat parent field (field 3) is `q` and whose stat pid field
(field 0) is `c`. -/
def edgeP (procT : ProcTable) (q c : String) : Prop :=
  ∃ e ∈ procT, isPidFile e.1 = true ∧
    (goFields e.2).get? 3 = some q ∧ (goFields e.2).get? 0 = some c

theorem Collected_lift {procT : ProcTable} {root c p : String}
    (hedge : edgeP procT root c) (h : Collected procT c p) :
    Collected procT root p := by
  induction h with
  | base =>
    obtain ⟨e, he, hpf, h3, h0⟩ := hedge
    exact Collected.step Collected.base he hpf h3 h0
  | step hq hmem hpf h3 h0 ih =>
    exact Collected.step ih hmem hpf h3 h0

/-- Completeness of a trace that contains the root, is closed under
snapshot edges, and writes every collected pid to every tasks file. -/
theorem trace_complete {procT : ProcTable} {tasksFiles : List Path}
    {tr : List (Path × String)} {pid : String}
    (hbase : ∀ f ∈ tasksFiles, (f, pid) ∈ tr)
    (hall : ∀ p, (∃ f, (f, p) ∈ tr) → ∀ f ∈ tasksFiles, (f, p) ∈ tr)
    (hclosed : ∀ q c, (∃ f, (f, q) ∈ tr) → edgeP procT q c →
      ∃ f2, (f2, c) ∈ tr) :
    ∀ p, Collected procT pid p → ∀ f ∈ tasksFiles, (f, p) ∈ tr := by
  intro p hp
  induction hp with
  | base => exact hbase
  | @step q name stat child hq hmem hpf h3 h0 ih =>
    intro f hf
    obtain ⟨f2, hf2⟩ := hclosed q child ⟨f, ih f hf⟩ ⟨(name, stat), hmem, hpf, h3, h0⟩
    exact hall child ⟨f2, hf2⟩ f hf

theorem writeTasksLoop_ok (pid : String) :
    ∀ (tfs : List Path) (fs : FS),
      (∀ f ∈ tfs, dirExistsB fs f.dropLast = true) →
      ∃ fs1, writeTasksLoop pid fs tfs = .ok fs1 ∧ fs1.dirs = fs.dirs := by
  intro tfs
  induction tfs with
  | nil => intro fs _; exact ⟨fs, rfl, rfl⟩
  | cons f rest ih =>
    intro fs hd
    obtain ⟨fsA, hwA⟩ : ∃ fsA, writeFileR fs f pid = .ok fsA :=
      ⟨_, writeFileR_ok (hd f (by simp))⟩
    have hdA : ∀ g ∈ rest, dirExistsB fsA g.dropLast = true := by
      intro g hg
      unfold dirExistsB
      rw [writeFileR_dirs hwA]
      exact hd g (by simp [hg])
    obtain ⟨fs1, heq1, hd1⟩ := ih fsA hdA
    refine ⟨fs1, ?_, by rw [hd1, writeFileR_dirs hwA]⟩
    conv_lhs => rw [writeTasksLoop.eq_def]
    simp only [hwA]
    exact heq1

/-- The /proc scan loop, given a recursion `child` that handles each
matching pid correctly: the scan succeeds, preserves the directory table,
everything it writes belongs to a child subtree, it covers every matching
entry, its trace writes every collected pid to every tasks file, and the
trace is closed under snapshot edges. -/
theorem collectChildrenAux_spec (procT0 : ProcTable) (tasksFiles : List Path)
    (child : String → FS → Except Err (FS × List (Path × String)))
    (pid : String)
    (hchild : ∀ c fsx, edgeP procT0 pid c →
      (∀ f ∈ tasksFiles, dirExistsB fsx f.dropLast = true) →
      ∃ fs2 tr, child c fsx = .ok (fs2, tr) ∧ fs2.dirs = fsx.dirs ∧
        (∀ w ∈ tr, w.1 ∈ tasksFiles ∧ Collected procT0 c w.2) ∧
        (∀ f ∈ tasksFiles, (f, c) ∈ tr) ∧
        (∀ p, (∃ f, (f, p) ∈ tr) → ∀ f ∈ tasksFiles, (f, p) ∈ tr) ∧
        (∀ q c2, (∃ f, (f, q) ∈ tr) → edgeP procT0 q c2 →
          ∃ f2, (f2, c2) ∈ tr)) :
    ∀ (entries : List (String × String)), (∀ e ∈ entries, e ∈ procT0) →
      (∀ e ∈ entries, isPidFile e.1 = true → 4 ≤ (goFields e.2).length) →
      ∀ fs, (∀ f ∈ tasksFiles, dirExistsB fs f.dropLast = true) →
      ∃ fs2 tr, collectChildrenAux child pid entries fs = .ok (fs2, tr) ∧
        fs2.dirs = fs.dirs ∧
        (∀ w ∈ tr, w.1 ∈ tasksFiles ∧
          ∃ c, edgeP procT0 pid c ∧ Collected procT0 c w.2) ∧
        (∀ e ∈ entries, isPidFile e.1 = true → ∀ c,
          (goFields e.2).get? 3 = some pid → (goFields e.2).get? 0 = some c →
          ∀ f ∈ tasksFiles, (f, c) ∈ tr) ∧
        (∀ p, (∃ f, (f, p) ∈ tr) → ∀ f ∈ tasksFiles, (f, p) ∈ tr) ∧
        (∀ q c2, (∃ f, (f, q) ∈ tr) → edgeP procT0 q c2 →
          ∃ f2, (f2, c2) ∈ tr) := by
  intro entries
  induction entries with
  | nil =>
    intro _ _ fs _
    refine ⟨fs, [], rfl, rfl, ?_, ?_, ?_, ?_⟩
    · intro w hw; cases hw
    · intro e he; cases he
    · rintro p ⟨f, hf⟩; cases hf
    · rintro q c2 ⟨f, hf⟩; cases hf
  | cons e rest ih =>
    intro hsub hstat fs hfs
    obtain ⟨name, stat⟩ := e
    by_cases hpidf : isPidFile name = true
    · have hlen := hstat (name, stat) (by simp) hpidf
      have hlen2 : 4 ≤ (goFields stat).length := hlen
      obtain ⟨par, hpar⟩ : ∃ par, (goFields stat).get? 3 = some par :=
        ⟨_, List.get?_eq_get (by omega)⟩
      by_cases hp : par = pid
      · obtain ⟨c0, hc0⟩ : ∃ c0, (goFields stat).get? 0 = some c0 :=
          ⟨_, List.get?_eq_get (by omega)⟩
        subst hp
        have hedge : edgeP procT0 par c0 :=
          ⟨(name, stat), hsub (name, stat) (by simp), hpidf, hpar, hc0⟩
        obtain ⟨fsa, tra, hca, hdirsa, hsound_a, hbase_a, hall_a, hcl_a⟩ :=
          hchild c0 fs hedge hfs
        have hfsa : ∀ f ∈ tasksFiles, dirExistsB fsa f.dropLast = true := by
          intro f hf
          unfold dirExistsB
          rw [hdirsa]
          exact hfs f hf
        obtain ⟨fsb, trb, hcb, hdirsb, hsound_b, hdirect_b, hall_b, hcl_b⟩ :=
          ih (fun e2 he2 => hsub e2 (by simp [he2]))
            (fun e2 he2 => hstat e2 (by simp [he2])) fsa hfsa
        refine ⟨fsb, tra ++ trb, ?_, by rw [hdirsb, hdirsa], ?_, ?_, ?_, ?_⟩
        · conv_lhs => rw [collectChildrenAux.eq_def]
          simp only [hpidf, if_true, hpar, hc0, hca, hcb]
        · intro w hw
          rcases List.mem_append.mp hw with hw | hw
          · obtain ⟨h1, h2⟩ := hsound_a w hw
            exact ⟨h1, c0, hedge, h2⟩
          · exact hsound_b w hw
        · intro e2 he2 hpf2 c h3 h0 f hf
          rcases List.mem_cons.mp he2 with he2 | he2
          · have hstat2 : (goFields e2.2).get? 3 = some par := by
              rw [he2] at h3 ⊢
              exact h3
            have hcc : c = c0 := by
              rw [he2] at h0
              rw [h0] at hc0
              exact Option.some.inj hc0
            rw [hcc]
            exact List.mem_append_left _ (hbase_a f hf)
          · exact List.mem_append_right _ (hdirect_b e2 he2 hpf2 c h3 h0 f hf)
        · rintro p ⟨f, hf⟩ f2 hf2
          rcases List.mem_append.mp hf with hf | hf
          · exact List.mem_append_left _ (hall_a p ⟨f, hf⟩ f2 hf2)
          · exact List.mem_append_right _ (hall_b p ⟨f, hf⟩ f2 hf2)
        · rintro q c2 ⟨f, hf⟩ hedge2
          rcases List.mem_append.mp hf with hf | hf
          · obtain ⟨f2, hf2⟩ := hcl_a q c2 ⟨f, hf⟩ hedge2
            exact ⟨f2, List.mem_append_left _ hf2⟩
          · obtain ⟨f2, hf2⟩ := hcl_b q c2 ⟨f, hf⟩ hedge2
            exact ⟨f2, List.mem_append_right _ hf2⟩
      · obtain ⟨fsb, trb, hcb, hdirsb, hsound_b, hdirect_b, hall_b, hcl_b⟩ :=
          ih (fun e2 he2 => hsub e2 (by simp [he2]))
            (fun e2 he2 => hstat e2 (by simp [he2])) fs hfs
        refine ⟨fsb, trb, ?_, hdirsb, hsound_b, ?_, hall_b, hcl_b⟩
        · conv_lhs => rw [collectChildrenAux.eq_def]
          simp only [hpidf, if_true, hpar, hp, if_false]
          exact hcb
        · intro e2 he2 hpf2 c h3 h0 f hf
          rcases List.mem_cons.mp he2 with he2 | he2
          · exfalso
            apply hp
            rw [he2] at h3
            rw [h3] at hpar
            injection hpar with hpar
            exact hpar.symm
          · exact hdirect_b e2 he2 hpf2 c h3 h0 f hf
    · obtain ⟨fsb, trb, hcb, hdirsb, hsound_b, hdirect_b, hall_b, hcl_b⟩ :=
        ih (fun e2 he2 => hsub e2 (by simp [he2]))
          (fun e2 he2 => hstat e2 (by simp [he2])) fs hfs
      refine ⟨fsb, trb, ?_, hdirsb, hsound_b, ?_, hall_b, hcl_b⟩
      · conv_lhs => rw [collectChildrenAux.eq_def]
        simp only [Bool.not_eq_true] at hpidf
        simp only [hpidf, Bool.false_eq_true, if_false]
        exact hcb
      · intro e2 he2 hpf2 c h3 h0 f hf
        rcases List.mem_cons.mp he2 with he2 | he2
        · exfalso
          rw [he2] at hpf2
          simp only [Bool.not_eq_true] at hpidf
          rw [hpidf] at hpf2
          cases hpf2
        · exact hdirect_b e2 he2 hpf2 c h3 h0 f hf

/-- The recursive pid collection is correct: with enough fuel (any rank
function decreasing along snapshot edges bounds the recursion), well-formed
stat records and writable tasks files, it succeeds, and its trace holds
the root and, closed under snapshot edges, every write of a collected pid
into every tasks file. -/
theorem collectPids_spec (procT : ProcTable) (tasksFiles : List Path)
    (rank : String → Nat)
    (hstat : ∀ e ∈ procT, isPidFile e.1 = true → 4 ≤ (goFields e.2).length)
    (hrank : ∀ e ∈ procT, isPidFile e.1 = true → ∀ par child,
      (goFields e.2).get? 3 = some par → (goFields e.2).get? 0 = some child →
      rank child < rank par) :
    ∀ (fuel : Nat) (pid : String) (fs : FS), rank pid < fuel →
      (∀ f ∈ tasksFiles, dirExistsB fs f.dropLast = true) →
      ∃ fs2 tr, collectPids procT tasksFiles true fuel pid fs = .ok (fs2, tr) ∧
        fs2.dirs = fs.dirs ∧
        (∀ w ∈ tr, w.1 ∈ tasksFiles ∧ Collected procT pid w.2) ∧
        (∀ f ∈ tasksFiles, (f, pid) ∈ tr) ∧
        (∀ p, (∃ f, (f, p) ∈ tr) → ∀ f ∈ tasksFiles, (f, p) ∈ tr) ∧
        (∀ q c2, (∃ f, (f, q) ∈ tr) → edgeP procT q c2 →
          ∃ f2, (f2, c2) ∈ tr) := by
  intro fuel
  induction fuel with
  | zero =>
    intro pid fs hf _
    exact absurd hf (Nat.not_lt_zero _)
  | succ fuel ihf =>
    intro pid fs hfuel hfs
    obtain ⟨fs1, hwt, hd1⟩ := writeTasksLoop_ok pid tasksFiles fs hfs
    have hfs1 : ∀ f ∈ tasksFiles, dirExistsB fs1 f.dropLast = true := by
      intro f hf
      unfold dirExistsB
      rw [hd1]
      exact hfs f hf
    have hchild : ∀ c fsx, edgeP procT pid c →
        (∀ f ∈ tasksFiles, dirExistsB fsx f.dropLast = true) →
        ∃ fs2 tr,
          (fun p fsy => collectPids procT tasksFiles true fuel p fsy) c fsx =
            .ok (fs2, tr) ∧ fs2.dirs = fsx.dirs ∧
          (∀ w ∈ tr, w.1 ∈ tasksFiles ∧ Collected procT c w.2) ∧
          (∀ f ∈ tasksFiles, (f, c) ∈ tr) ∧
          (∀ p, (∃ f, (f, p) ∈ tr) → ∀ f ∈ tasksFiles, (f, p) ∈ tr) ∧
          (∀ q c2, (∃ f, (f, q) ∈ tr) → edgeP procT q c2 →
            ∃ f2, (f2, c2) ∈ tr) := by
      intro c fsx hedge hfsx
      obtain ⟨e, he, hpf, h3, h0⟩ := hedge
      have hrc : rank c < fuel := by
        have hlt := hrank e he hpf pid c h3 h0
        omega
      exact ihf c fsx hrc hfsx
    obtain ⟨fsb, trb, hcb, hdirsb, hsound_b, hdirect_b, hall_b, hcl_b⟩ :=
      collectChildrenAux_spec procT tasksFiles
        (fun p fsy => collectPids procT tasksFiles true fuel p fsy) pid hchild
        procT (fun _ he => he) hstat fs1 hfs1
    refine ⟨fsb, tasksFiles.map (fun f => (f, pid)) ++ trb, ?_,
      by rw [hdirsb, hd1], ?_, ?_, ?_, ?_⟩
    · conv_lhs => rw [collectPids.eq_def]
      simp only [hwt, hcb, if_true]
    · intro w hw
      rcases List.mem_append.mp hw with hw | hw
      · obtain ⟨f, hf, he⟩ := List.mem_map.mp hw
        refine ⟨?_, ?_⟩
        · rw [← he]
          exact hf
        · rw [← he]
          exact Collected.base
      · obtain ⟨h1, c, hedge, hcol⟩ := hsound_b w hw
        exact ⟨h1, Collected_lift hedge hcol⟩
    · intro f hf
      exact List.mem_append_left _ (List.mem_map_of_mem _ hf)
    · rintro p ⟨f, hf⟩ f2 hf2
      rcases List.mem_append.mp hf with hf | hf
      · obtain ⟨g, hg, he⟩ := List.mem_map.mp hf
        have hp : p = pid := (congrArg Prod.snd he).symm
        rw [hp]
        exact List.mem_append_left _ (List.mem_map_of_mem _ hf2)
      · exact List.mem_append_right _ (hall_b p ⟨f, hf⟩ f2 hf2)
    · rintro q c2 ⟨f, hf⟩ hedge2
      rcases List.mem_append.mp hf with hf | hf
      · obtain ⟨g, hg, he⟩ := List.mem_map.mp hf
        have hq : q = pid := (congrArg Prod.snd he).symm
        have hfin : f ∈ tasksFiles := by
          have hg2 : g = f := congrArg Prod.fst he
          rw [← hg2]
          exact hg
        subst hq
        obtain ⟨e, he2, hpf2, h3, h0⟩ := hedge2
        exact ⟨f, List.mem_append_right _
          (hdirect_b e he2 hpf2 c2 h3 h0 f hfin)⟩
      · obtain ⟨f2, hf2⟩ := hcl_b q c2 ⟨f, hf⟩ hedge2
        exact ⟨f2, List.mem_append_right _ hf2⟩

/-- C5: in attach mode without the recursive flag, collectPids writes
exactly the target pid into every per-subsystem tasks file (its write trace
is precisely one write of pid per tasks file); with the recursive flag, the
pids written are exactly the target pid together with every snapshot entry
whose stat parent field equals an already-collected pid, recursively — the
Collected closure — each written into every tasks file.  Hypotheses: the
tasks files sit in existing directories, stat records of all-digit entries
have at least 4 fields, and some rank decreases along parent-child edges
(the /proc snapshot is a tree; the fuel of the embedding exceeds the rank
of the target). -/
theorem c5_collect_pids (procT : ProcTable) (tasksFiles : List Path) (fs : FS)
    (pid : String) (fuel : Nat) (rank : String → Nat)
    (hw : ∀ f ∈ tasksFiles, dirExistsB fs f.dropLast = true)
    (hstat : ∀ e ∈ procT, isPidFile e.1 = true → 4 ≤ (goFields e.2).length)
    (hrank : ∀ e ∈ procT, isPidFile e.1 = true → ∀ par child,
      (goFields e.2).get? 3 = some par → (goFields e.2).get? 0 = some child →
      rank child < rank par)
    (hfuel : rank pid < fuel) :
    (∃ fs1, collectPids procT tasksFiles false fuel pid fs =
      .ok (fs1, tasksFiles.map (fun f => (f, pid)))) ∧
    (∃ fs2 tr, collectPids procT tasksFiles true fuel pid fs = .ok (fs2, tr) ∧
      ∀ f p, ((f, p) ∈ tr ↔ f ∈ tasksFiles ∧ Collected procT pid p)) := by
  constructor
  · cases fuel with
    | zero => exact absurd hfuel (Nat.not_lt_zero _)
    | succ fuel =>
      obtain ⟨fs1, hwt, _⟩ := writeTasksLoop_ok pid tasksFiles fs hw
      refine ⟨fs1, ?_⟩
      conv_lhs => rw [collectPids.eq_def]
      simp only [hwt, Bool.false_eq_true, if_false]
  · obtain ⟨fs2, tr, hc, _, hsound, hbase, hall, hcl⟩ :=
      collectPids_spec procT tasksFiles rank hstat hrank fuel pid fs hfuel hw
    refine ⟨fs2, tr, hc, ?_⟩
    intro f p
    constructor
    · intro hin
      exact hsound (f, p) hin
    · rintro ⟨hf, hcol⟩
      exact trace_complete hbase hall hcl p hcol f hf

/-- Witness for C5 at a concrete snapshot: pid 3 has child 5 and
grandchild 7, one tasks file in an existing directory, fuel 3. -/
theorem c5_collect_pids_witness :
    (∀ f ∈ ([["cg", "cpu", "h", "tasks"]] : List Path),
      dirExistsB ⟨[(["cg", "cpu", "h"], 488)], []⟩ f.dropLast = true) ∧
    (∀ e ∈ ([("5", "5 x S 3 0"), ("7", "7 y S 5 0")] : ProcTable),
      isPidFile e.1 = true → 4 ≤ (goFields e.2).length) ∧
    (∀ e ∈ ([("5", "5 x S 3 0"), ("7", "7 y S 5 0")] : ProcTable),
      isPidFile e.1 = true → ∀ par child,
      (goFields e.2).get? 3 = some par → (goFields e.2).get? 0 = some child →
      (fun p : String => if p = "3" then 2 else if p = "5" then 1 else 0) child <
      (fun p : String => if p = "3" then 2 else if p = "5" then 1 else 0) par) ∧
    ((∃ fs1, collectPids [("5", "5 x S 3 0"), ("7", "7 y S 5 0")]
        [["cg", "cpu", "h", "tasks"]] false 3 "3"
        ⟨[(["cg", "cpu", "h"], 488)], []⟩ =
        .ok (fs1, [(["cg", "cpu", "h", "tasks"], "3")])) ∧
      (∃ fs2 tr, collectPids [("5", "5 x S 3 0"), ("7", "7 y S 5 0")]
        [["cg", "cpu", "h", "tasks"]] true 3 "3"
        ⟨[(["cg", "cpu", "h"], 488)], []⟩ = .ok (fs2, tr) ∧
        ∀ f p, ((f, p) ∈ tr ↔
          f ∈ ([["cg", "cpu", "h", "tasks"]] : List Path) ∧
          Collected [("5", "5 x S 3 0"), ("7", "7 y S 5 0")] "3" p))) := by
  have hw : ∀ f ∈ ([["cg", "cpu", "h", "tasks"]] : List Path),
      dirExistsB ⟨[(["cg", "cpu", "h"], 488)], []⟩ f.dropLast = true := by
    decide
  have hstat : ∀ e ∈ ([("5", "5 x S 3 0"), ("7", "7 y S 5 0")] : ProcTable),
      isPidFile e.1 = true → 4 ≤ (goFields e.2).length := by
    decide
  have hrank : ∀ e ∈ ([("5", "5 x S 3 0"), ("7", "7 y S 5 0")] : ProcTable),
      isPidFile e.1 = true → ∀ par child,
      (goFields e.2).get? 3 = some par → (goFields e.2).get? 0 = some child →
      (fun p : String => if p = "3" then 2 else if p = "5" then 1 else 0) child <
      (fun p : String => if p = "3" then 2 else if p = "5" then 1 else 0) par := by
    intro e he hpf par child h3 h0
    rcases List.mem_cons.mp he with he | he
    · subst he
      have h3a : some "3" = some par := h3
      have h0a : some "5" = some child := h0
      have hpar : "3" = par := Option.some.inj h3a
      have hchild : "5" = child := Option.some.inj h0a
      subst hpar
      subst hchild
      decide
    · rcases List.mem_cons.mp he with he | he
      · subst he
        have h3a : some "5" = some par := h3
        have h0a : some "7" = some child := h0
        have hpar : "5" = par := Option.some.inj h3a
        have hchild : "7" = child := Option.some.inj h0a
        subst hpar
        subst hchild
        decide
      · cases he
  exact ⟨hw, hstat, hrank,
    c5_collect_pids [("5", "5 x S 3 0"), ("7", "7 y S 5 0")]
      [["cg", "cpu", "h", "tasks"]] ⟨[(["cg", "cpu", "h"], 488)], []⟩ "3" 3
      (fun p : String => if p = "3" then 2 else if p = "5" then 1 else 0)
      hw hstat hrank (by decide)⟩

end Cgrun
